import Mathlib

/-! Lead management API: the handlers of `src/controllers/lead.controllers.js`.

A shallow embedding of the controller.  The handler `getLeads` turns the query
parameters of a request into a filter object that is handed to the store, and
resolves the page and the limit.  The embedding follows the handler statement by
statement: the helpers `parseBoolean`, `parseNumber` and `parseDate`, then one
function per loop body of the handler, then the loops themselves, then the
pagination.  The handlers `createLead`, `getLeadById`, `updateLead` and
`deleteLead` are embedded as functions of the request and of what the
repository answers; they return the calls made to the repository and the way
the handler ends.

JavaScript built-ins used by the handlers (`Number`, `parseInt`, `Math.max`,
`Math.ceil`, `String.prototype.trim`, `split`, `toLowerCase`, `new Date`,
`setHours`) are embedded after ECMA-262.
-/

namespace LeadsApi

/-! ## JavaScript values -/

/-- A JavaScript number.  A finite number is represented by the exact value of the
numeral it was read from: which numerals are finite is decided as binary64 does
(see `ofExact`), the rounding of a finite value to binary64 is not represented,
and `-0` is `0`. -/
inductive JSNumber
  | nan
  | infinity (negative : Bool)
  | finite (x : ℚ)
deriving DecidableEq

/-- A value of `req.query` or `req.body` as the handlers can observe it: absent,
`null`, a string, a boolean, a number, an array of strings, or a plain object
with its own keys.  The handlers never read the values under the keys of such an
object; the request parsers store data under them, never a function.  An object
without an own key `toString` converts to a primitive by the inherited method,
to the text `[object Object]`; for an object with an own key `toString` the
conversion raises (see `toPrimitiveRaises`). -/
inductive JSValue
  | undefined
  | null
  | string (s : String)
  | boolean (b : Bool)
  | number (n : JSNumber)
  | array (items : List String)
  | object (ownKeys : List String)
deriving DecidableEq

/-- The query object `req.query`: reading a key that is absent gives `undefined`. -/
abbrev Query := String → JSValue

/-- The test `typeof v === "string"`. -/
def isString : JSValue → Bool
  | .string _ => true
  | _ => false

/-- Truthiness (`ToBoolean`): `undefined`, `null`, the empty string, `false`, zero
and `NaN` are falsy. -/
def truthy : JSValue → Bool
  | .undefined => false
  | .null => false
  | .string s => s.data ≠ []
  | .boolean b => b
  | .number (.finite x) => x ≠ 0
  | .number .nan => false
  | .number (.infinity _) => true
  | .array _ => true
  | .object _ => true

/-- The string an array of strings or a plain object converts to (`ToPrimitive`):
an array is joined with commas, a plain object gives `[object Object]`. -/
def objectToString : JSValue → String
  | .array items => ",".intercalate items
  | _ => "[object Object]"

/-- Whether the conversion of a value to a primitive (`ToPrimitive`, which
`Number(value)`, `new Date(value)` and `parseInt(value)` start with) raises a
`TypeError`.  It does for an object with an own key `toString`: the inherited
`valueOf` returns the object itself, no primitive, and the own `toString` is data
and cannot be called (ECMA-262 7.1.1.1, `OrdinaryToPrimitive`).  The Express 4
query parser gives such an object for `?score[toString]=x`. -/
def toPrimitiveRaises : JSValue → Bool
  | .object ownKeys => ownKeys.contains "toString"
  | _ => false

/-! ## Strings -/

/-- The code points of `WhiteSpace` and `LineTerminator` (ECMA-262 12.2, 12.3),
which `trim` and `Number` strip. -/
def isStrWhiteSpaceChar (c : Char) : Bool :=
  let n := c.toNat
  n = 0x09 || n = 0x0A || n = 0x0B || n = 0x0C || n = 0x0D || n = 0x20 || n = 0xA0
    || n = 0x1680 || (0x2000 ≤ n && n ≤ 0x200A) || n = 0x2028 || n = 0x2029
    || n = 0x202F || n = 0x205F || n = 0x3000 || n = 0xFEFF

/-- Characters of a string with leading white space removed. -/
def trimStartChars (cs : List Char) : List Char :=
  cs.dropWhile isStrWhiteSpaceChar

/-- Characters of a string with trailing white space removed. -/
def trimEndChars (cs : List Char) : List Char :=
  (cs.reverse.dropWhile isStrWhiteSpaceChar).reverse

/-- Characters of a string with white space removed from both ends. -/
def trimChars (cs : List Char) : List Char :=
  trimEndChars (trimStartChars cs)

/-- The method `String.prototype.trim`. -/
def trim (s : String) : String := ⟨trimChars s.data⟩

/-- Splitting of a character list on commas; the result is never empty, and an
empty input gives one empty token. -/
def splitCommaChars : List Char → List (List Char)
  | [] => [[]]
  | c :: cs =>
    if c = ',' then [] :: splitCommaChars cs
    else
      match splitCommaChars cs with
      | [] => [[c]]
      | t :: ts => (c :: t) :: ts

/-- The call `s.split(",")`. -/
def splitComma (s : String) : List String :=
  (splitCommaChars s.data).map String.mk

/-- The method `toLowerCase`, on the letters `A` to `Z`.  The remaining code points
with a lower-case mapping (such as U+212A, U+0130) map to no letter of `true` or
`false`, so the comparisons of `parseBoolean` are decided as in JavaScript. -/
def toLowerCase (s : String) : String := ⟨s.data.map Char.toLower⟩

/-- Element `i` of an array of strings, as array destructuring reads it:
`undefined` past the end. -/
def element (parts : List String) (i : Nat) : JSValue :=
  match parts.get? i with
  | some s => .string s
  | none => .undefined

/-! ## Numbers -/

/-- Least magnitude that rounds to an infinity in binary64 (round to nearest,
ties to even): `2^1024 - 2^970`. -/
def overflowBound : ℚ := 2 ^ 1024 - 2 ^ 970

/-- The number with mathematical value `x`. -/
def ofExact (x : ℚ) : JSNumber :=
  if |x| < overflowBound then .finite x else .infinity (decide (x < 0))

/-- Value of a digit in the given radix. -/
def digitValue (radix : Nat) (c : Char) : Option Nat :=
  let v : Option Nat :=
    if '0' ≤ c ∧ c ≤ '9' then some (c.toNat - 48)
    else if 'a' ≤ c ∧ c ≤ 'f' then some (c.toNat - 87)
    else if 'A' ≤ c ∧ c ≤ 'F' then some (c.toNat - 55)
    else none
  v.bind fun d => if d < radix then some d else none

/-- Value of a run of digits continuing the value `acc`; `none` when a character
is not a digit of the radix. -/
def digitsFrom (radix : Nat) (acc : Nat) : List Char → Option Nat
  | [] => some acc
  | c :: cs =>
    match digitValue radix c with
    | some d => digitsFrom radix (acc * radix + d) cs
    | none => none

/-- Value of a non-empty run of digits (`DecimalDigits`, `HexDigits`, ...). -/
def digits (radix : Nat) (cs : List Char) : Option Nat :=
  if cs = [] then none else digitsFrom radix 0 cs

/-- An optional sign: whether it is `-`, and the rest. -/
def takeSign : List Char → Bool × List Char
  | '+' :: cs => (false, cs)
  | '-' :: cs => (true, cs)
  | cs => (false, cs)

/-- The production `ExponentPart`, optional: its value, `0` when absent. -/
def exponentPart : List Char → Option Int
  | [] => some 0
  | c :: cs =>
    if c = 'e' ∨ c = 'E' then
      (digits 10 (takeSign cs).2).map fun n =>
        if (takeSign cs).1 then -(n : Int) else (n : Int)
    else none

/-- The production `StrUnsignedDecimalLiteral` without `Infinity`: mantissa and
power of ten. -/
def unsignedDecimal (cs : List Char) : Option (Nat × Int) :=
  let intPart := cs.takeWhile Char.isDigit
  match cs.dropWhile Char.isDigit with
  | '.' :: rest =>
    let fracPart := rest.takeWhile Char.isDigit
    if intPart = [] ∧ fracPart = [] then none
    else
      (exponentPart (rest.dropWhile Char.isDigit)).bind fun e =>
        (digitsFrom 10 0 (intPart ++ fracPart)).map fun m => (m, e - (fracPart.length : Int))
  | rest =>
    if intPart = [] then none
    else (exponentPart rest).bind fun e => (digitsFrom 10 0 intPart).map fun m => (m, e)

/-- A parsed `StringNumericLiteral`: white space only, a signed `Infinity`, a
signed decimal literal `mantissa * 10 ^ exponent`, or an unsigned binary, octal
or hexadecimal integer. -/
inductive StrNumericLiteral
  | empty
  | infinity (negative : Bool)
  | decimal (negative : Bool) (mantissa : Nat) (exponent : Int)
  | nonDecimal (n : Nat)
deriving DecidableEq

/-- The production `StrDecimalLiteral`. -/
def strDecimalLiteral (cs : List Char) : Option StrNumericLiteral :=
  let negative := (takeSign cs).1
  let body := (takeSign cs).2
  if body = "Infinity".data then some (.infinity negative)
  else (unsignedDecimal body).map fun me => .decimal negative me.1 me.2

/-- The production `NonDecimalIntegerLiteral` applied to a whole literal. -/
def nonDecimalLiteral (radix : Nat) (ds : List Char) : Option StrNumericLiteral :=
  (digits radix ds).map .nonDecimal

/-- Parsing of a string as a `StringNumericLiteral` (ECMA-262 7.1.4.1): white
space is stripped from both ends first; `none` when the text is not a literal. -/
def parseStrNumericLiteral (s : String) : Option StrNumericLiteral :=
  match trimChars s.data with
  | [] => some .empty
  | '0' :: 'x' :: ds => nonDecimalLiteral 16 ds
  | '0' :: 'X' :: ds => nonDecimalLiteral 16 ds
  | '0' :: 'o' :: ds => nonDecimalLiteral 8 ds
  | '0' :: 'O' :: ds => nonDecimalLiteral 8 ds
  | '0' :: 'b' :: ds => nonDecimalLiteral 2 ds
  | '0' :: 'B' :: ds => nonDecimalLiteral 2 ds
  | cs => strDecimalLiteral cs

/-- The value `StringNumericValue` of a literal: the empty literal is `0`. -/
def stringNumericValue : StrNumericLiteral → JSNumber
  | .empty => .finite 0
  | .infinity negative => .infinity negative
  | .decimal negative m e =>
    ofExact (if negative then -((m : ℚ) * (10 : ℚ) ^ e) else (m : ℚ) * (10 : ℚ) ^ e)
  | .nonDecimal n => ofExact (n : ℚ)

/-- The abstract operation `StringToNumber` (ECMA-262 7.1.4.1.1): text that is not
a `StringNumericLiteral` is `NaN`. -/
def stringToNumber (s : String) : JSNumber :=
  match parseStrNumericLiteral s with
  | some literal => stringNumericValue literal
  | none => .nan

/-- The call `Number(value)` (`ToNumber`) when it returns: on a value whose
conversion raises (`toPrimitiveRaises`) the call returns nothing, see
`toNumberChecked`, and the result here stands for no run of the code. -/
def toNumber : JSValue → JSNumber
  | .undefined => .nan
  | .null => .finite 0
  | .boolean b => .finite (if b then 1 else 0)
  | .number n => n
  | .string s => stringToNumber s
  | v => stringToNumber (objectToString v)

/-! ## Dates -/

/-- What the handler takes from its runtime: the offset of local time from UTC in
milliseconds, `LocalTZA(t, isUTC)` of ECMA-262 21.4.1, which depends on the
instant (daylight saving time) and reads `t` as a UTC time value when `isUTC`
is true and as a local time value when it is false; and `Date.parse`, whose
result on a string is a time value in milliseconds since the epoch or `none`
for `NaN`.  ECMA-262 fixes `Date.parse` on the date-time string format only and
leaves the other strings to the implementation. -/
structure Runtime where
  localTZA : Int → Bool → Int
  dateParse : String → Option Int

/-- A `Date` object: a time value in milliseconds since the epoch, or an invalid
date (time value `NaN`). -/
inductive JSDate
  | time (t : Int)
  | invalid
deriving DecidableEq

/-- Milliseconds in a day. -/
def msPerDay : Int := 86400000

/-- The abstract operation `TimeClip`. -/
def timeClip (t : Int) : JSDate :=
  if |t| ≤ 8640000000000000 then .time t else .invalid

/-- The time value of `new Date(value)` when the call returns: a string (or what
an array or object converts to) goes through `Date.parse`, any other value
through `ToNumber`.  On a value whose conversion raises (`toPrimitiveRaises`) the
call returns nothing, see `newDateChecked`. -/
def newDate (rt : Runtime) : JSValue → Option Int
  | .undefined => none
  | .null => some 0
  | .boolean b => some (if b then 1 else 0)
  | .number (.finite x) =>
    if |x| ≤ 8640000000000000 then some (if 0 ≤ x then x.floor else x.ceil) else none
  | .number _ => none
  | .string s => rt.dateParse s
  | v => rt.dateParse (objectToString v)

/-- The abstract operation `LocalTime(t)`: the local time value of the UTC time
value `t`, with the offset in force at `t`. -/
def localTime (rt : Runtime) (t : Int) : Int :=
  t + rt.localTZA t true

/-- The abstract operation `UTC(t)`: the UTC time value of the local time value
`t`, with the offset in force at that local time. -/
def utcOfLocal (rt : Runtime) (t : Int) : Int :=
  t - rt.localTZA t false

/-- The call `d.setHours(h, m, s, ms)` on a date with time value `t`
(ECMA-262 21.4.4.24): the local day of `t` is kept, the time within the day is
replaced, and the local time so made is converted back to UTC. -/
def setHours (rt : Runtime) (t : Int) (h m s ms : Int) : JSDate :=
  let day := localTime rt t / msPerDay
  let newLocal := day * msPerDay + (h * 3600000 + m * 60000 + s * 1000 + ms)
  timeClip (utcOfLocal rt newLocal)

/-! ## The helpers of `getLeads` -/

/-- Helper `parseBoolean` of `getLeads`. -/
def parseBoolean (value : JSValue) : Option Bool :=
  match value with
  | .boolean b => some b
  | .string s =>
    let v := toLowerCase s
    if v = "true" then some true
    else if v = "false" then some false
    else none
  | _ => none

/-- Helper `parseNumber` of `getLeads`: `Number(value)` when it is finite. -/
def parseNumber (value : JSValue) : Option ℚ :=
  match toNumber value with
  | .finite x => some x
  | _ => none

/-- Helper `parseDate` of `getLeads`: the time value of `new Date(value)` unless
it is `NaN`. -/
def parseDate (rt : Runtime) (value : JSValue) : Option Int :=
  newDate rt value

/-! ## The filter object -/

/-- A range object over numbers, with the keys `$gt`, `$lt`, `$gte`, `$lte`. -/
structure NumberRange where
  gt : Option ℚ := none
  lt : Option ℚ := none
  gte : Option ℚ := none
  lte : Option ℚ := none
deriving DecidableEq

/-- A range object over dates, with the keys `$gt`, `$lt`, `$gte`, `$lte`. -/
structure DateRange where
  gt : Option JSDate := none
  lt : Option JSDate := none
  gte : Option JSDate := none
  lte : Option JSDate := none
deriving DecidableEq

/-- The number of keys of a number range, `Object.keys(range).length`. -/
def NumberRange.keyCount (r : NumberRange) : Nat :=
  (if r.gt.isSome then 1 else 0) + (if r.lt.isSome then 1 else 0)
    + (if r.gte.isSome then 1 else 0) + (if r.lte.isSome then 1 else 0)

/-- The number of keys of a date range, `Object.keys(range).length`. -/
def DateRange.keyCount (r : DateRange) : Nat :=
  (if r.gt.isSome then 1 else 0) + (if r.lt.isSome then 1 else 0)
    + (if r.gte.isSome then 1 else 0) + (if r.lte.isSome then 1 else 0)

/-- What the handler stores under a field of the filter: a literal (equality), a
pattern `{ $regex, $options }`, a membership list `{ $in }`, or a range object. -/
inductive Constraint
  | eq (v : JSValue)
  | regex (pattern : String) (options : String)
  | isIn (parts : List String)
  | numberRange (r : NumberRange)
  | dateRange (r : DateRange)
deriving DecidableEq

/-- The filter object: its keys with their values, in insertion order. -/
abbrev Filter := List (String × Constraint)

/-- Reading `filter[field]`. -/
def Filter.get (filter : Filter) (field : String) : Option Constraint :=
  match filter with
  | [] => none
  | (k, c) :: rest => if k = field then some c else Filter.get rest field

/-- The assignment `filter[field] = c`: an existing key keeps its place. -/
def Filter.set (filter : Filter) (field : String) (c : Constraint) : Filter :=
  match filter with
  | [] => [(field, c)]
  | (k, old) :: rest =>
    if k = field then (k, c) :: rest else (k, old) :: Filter.set rest field c

/-- The assignment `filter[field] = c` when the loop body produced a constraint,
nothing otherwise. -/
def Filter.assign (filter : Filter) (field : String) (c : Option Constraint) : Filter :=
  match c with
  | some c => filter.set field c
  | none => filter

/-! ## The filter construction of `getLeads` -/

/-- The string fields of the handler. -/
def stringFields : List String := ["email", "company", "city"]

/-- The enum fields of the handler. -/
def enumFields : List String := ["status", "source"]

/-- The number fields of the handler. -/
def numberFields : List String := ["score", "lead_value"]

/-- The date fields of the handler. -/
def dateFields : List String := ["created_at", "last_activity_at"]

/-- Body of the loop over `stringFields`: what is assigned to `filter[field]`. -/
def stringConstraint (q : Query) (field : String) : Option Constraint :=
  let eqVal := q field
  let containsVal := q (field ++ "_contains")
  if truthy eqVal && isString eqVal then
    some (.eq eqVal)
  else
    match containsVal with
    | .string pattern =>
      if truthy containsVal then some (.regex pattern "i") else none
    | _ => none

/-- Body of the loop over `enumFields`: what is assigned to `filter[field]`. -/
def enumConstraint (q : Query) (field : String) : Option Constraint :=
  let eqVal := q field
  let inVal := q (field ++ "_in")
  if truthy eqVal && isString eqVal then
    some (.eq eqVal)
  else
    match inVal with
    | .string list =>
      if truthy inVal then
        let parts := ((splitComma list).map trim).filter fun s => truthy (.string s)
        if parts.length > 0 then some (.isIn parts) else none
      else none
    | _ => none

/-- Body of the loop over `numberFields`: what is assigned to `filter[field]`. -/
def numberConstraint (q : Query) (field : String) : Option Constraint :=
  let eqVal := parseNumber (q field)
  let gtVal := parseNumber (q (field ++ "_gt"))
  let ltVal := parseNumber (q (field ++ "_lt"))
  let betweenVal := q (field ++ "_between")
  match eqVal with
  | some n => some (.eq (.number (.finite n)))
  | none =>
    let range : NumberRange := {}
    let range := match gtVal with
      | some a => { range with gt := some a }
      | none => range
    let range := match ltVal with
      | some b => { range with lt := some b }
      | none => range
    let range := match betweenVal with
      | .string text =>
        if truthy betweenVal then
          let parts := (splitComma text).map trim
          let min := parseNumber (element parts 0)
          let max := parseNumber (element parts 1)
          let range := match min with
            | some c => { range with gte := some c }
            | none => range
          match max with
          | some d => { range with lte := some d }
          | none => range
        else range
      | _ => range
    if range.keyCount > 0 then some (.numberRange range) else none

/-- Body of the loop over `dateFields`: what is assigned to `filter[field]`.  The
first branch is the one that ends in `continue`. -/
def dateConstraint (rt : Runtime) (q : Query) (field : String) : Option Constraint :=
  let onVal := q (field ++ "_on")
  let beforeVal := q (field ++ "_before")
  let afterVal := q (field ++ "_after")
  let betweenVal := q (field ++ "_between")
  let range : DateRange := {}
  match (if truthy onVal then parseDate rt onVal else none) with
  | some d =>
    let start := setHours rt d 0 0 0 0
    let stop := setHours rt d 23 59 59 999
    some (.dateRange { gte := some start, lte := some stop })
  | none =>
    let range := match (if truthy beforeVal then parseDate rt beforeVal else none) with
      | some d => { range with lt := some (.time d) }
      | none => range
    let range := match (if truthy afterVal then parseDate rt afterVal else none) with
      | some d => { range with gt := some (.time d) }
      | none => range
    let range := match betweenVal with
      | .string text =>
        if truthy betweenVal then
          let parts := (splitComma text).map trim
          let fromDate := parseDate rt (element parts 0)
          let toDate := parseDate rt (element parts 1)
          let range := match fromDate with
            | some d => { range with gte := some (.time d) }
            | none => range
          match toDate with
          | some d => { range with lte := some (.time d) }
          | none => range
        else range
      | _ => range
    if range.keyCount > 0 then some (.dateRange range) else none

/-- The statement on `is_qualified`: what is assigned to `filter.is_qualified`. -/
def booleanConstraint (q : Query) : Option Constraint :=
  if q "is_qualified" ≠ .undefined then
    match parseBoolean (q "is_qualified") with
    | some bool => some (.eq (.boolean bool))
    | none => none
  else none

/-- The filter `getLeads` builds from the query (lines 57 to 180 of the
controller): the four loops in their order, then the boolean field. -/
def getLeadsFilter (rt : Runtime) (q : Query) : Filter :=
  let filter : Filter := []
  let filter := stringFields.foldl (fun filter field => filter.assign field (stringConstraint q field)) filter
  let filter := enumFields.foldl (fun filter field => filter.assign field (enumConstraint q field)) filter
  let filter := numberFields.foldl (fun filter field => filter.assign field (numberConstraint q field)) filter
  let filter := dateFields.foldl (fun filter field => filter.assign field (dateConstraint rt q field)) filter
  filter.assign "is_qualified" (booleanConstraint q)


/-- The query object that holds the listed parameters and nothing else. -/
def Query.ofList (params : List (String × JSValue)) : Query :=
  fun key =>
    match params.find? fun p => p.1 = key with
    | some p => p.2
    | none => .undefined

/-- A runtime whose local time is `tza` milliseconds ahead of UTC at every
instant and whose `Date.parse` is the given function. -/
def runtimeAt (tza : Int) (dateParse : String → Option Int) : Runtime :=
  { localTZA := fun _ _ => tza, dateParse := dateParse }

/-- A runtime whose offset from UTC changes once: it is `before` up to the
instant `change` and `after` from it on.  A local time is read with the offset
`before` when it lies before the local time the new offset starts with; a local
time the change skips or repeats is so read with the offset before the change
(ECMA-262 21.4.1.25, `LocalTZA` with `isUTC` false). -/
def runtimeWithChange (change before after : Int) (dateParse : String → Option Int) :
    Runtime :=
  { localTZA := fun t isUTC =>
      if isUTC then (if t < change then before else after)
      else (if t < change + max before after then before else after),
    dateParse := dateParse }

/-! ## The store's reading of a numeric constraint -/

/-- Whether a numeric document value satisfies a range object: it has to satisfy
every key the object holds (`$gt`, `$lt` strict, `$gte`, `$lte` inclusive). -/
def NumberRange.accepts (r : NumberRange) (v : ℚ) : Bool :=
  (match r.gt with | some a => decide (a < v) | none => true)
    && (match r.lt with | some b => decide (v < b) | none => true)
    && (match r.gte with | some c => decide (c ≤ v) | none => true)
    && (match r.lte with | some d => decide (v ≤ d) | none => true)

/-- Whether a numeric document value passes what the filter holds under a field:
every value passes when the filter has no such key, a literal is passed by the
equal value, a range by the values that satisfy it. -/
def acceptsNumber : Option Constraint → ℚ → Bool
  | none, _ => true
  | some (.eq (.number (.finite n))), v => decide (v = n)
  | some (.numberRange r), v => r.accepts v
  | some _, _ => false

/-- Token `i` of a comma-separated parameter, trimmed, as the handler destructures
`text.split(",").map((s) => s.trim())`. -/
def token (text : String) (i : Nat) : JSValue :=
  element ((splitComma text).map trim) i

/-! ## Blank strings and the tokens of an `_in` parameter -/

/-- The test `field.trim() === ""` of `createLead`: a string is blank when it is
empty or holds white space only. -/
def isBlank (s : String) : Bool := decide (trim s = "")

/-- The list `T` of an `_in` parameter in the words of the specification: the
value split on commas, each token trimmed, the empty tokens dropped, in order. -/
def inTokens (text : String) : List String :=
  ((splitComma text).map trim).filter fun t => decide (t ≠ "")

/-! ## Calendar dates -/

/-- The day number of a civil date of the proleptic Gregorian calendar, counted
from 1970-01-01, as `MakeDay` gives it. -/
def daysFromCivil (y m d : Int) : Int :=
  let y1 := if m ≤ 2 then y - 1 else y
  let era := y1 / 400
  let yoe := y1 - era * 400
  let mp := if m > 2 then m - 3 else m + 9
  let doy := (153 * mp + 2) / 5 + d - 1
  let doe := yoe * 365 + yoe / 4 - yoe / 100 + doy
  era * 146097 + doe - 719468

/-- The number of days of a month. -/
def daysInMonth (y m : Int) : Int :=
  if m = 2 then (if y % 4 = 0 ∧ (y % 100 ≠ 0 ∨ y % 400 = 0) then 29 else 28)
  else if m = 4 ∨ m = 6 ∨ m = 9 ∨ m = 11 then 30
  else 31

/-- The function `Date.parse` on the date-only form `YYYY-MM-DD` of the date-time
string format: a valid calendar date is midnight UTC of that day (ECMA-262
21.4.1.32).  Every other string is left unrecognised here: this parser serves
to evaluate the handler on date-only parameters. -/
def parseDateOnly (s : String) : Option Int :=
  match s.data with
  | [y1, y2, y3, y4, '-', m1, m2, '-', d1, d2] =>
    match digits 10 [y1, y2, y3, y4], digits 10 [m1, m2], digits 10 [d1, d2] with
    | some y, some m, some d =>
      if 1 ≤ m ∧ m ≤ 12 ∧ 1 ≤ d ∧ (d : Int) ≤ daysInMonth y m then
        some (daysFromCivil y m d * msPerDay)
      else none
    | _, _, _ => none
  | _ => none

/-- The day number of the local calendar day that holds the instant `t`. -/
def localDay (rt : Runtime) (t : Int) : Int :=
  localTime rt t / msPerDay

/-- The instant at which the local calendar day with day number `day` starts:
00:00:00.000 local time of that day, converted to UTC. -/
def localDayStart (rt : Runtime) (day : Int) : Int :=
  utcOfLocal rt (day * msPerDay)

/-- The last millisecond of the local calendar day with day number `day`:
23:59:59.999 local time of that day, converted to UTC. -/
def localDayEnd (rt : Runtime) (day : Int) : Int :=
  utcOfLocal rt (day * msPerDay + 86399999)

/-! ## Comparison ignoring case, and the store's reading of a pattern -/

/-- Whether two characters are equal ignoring case: their lower-case forms are
the same. -/
def sameCharIgnoreCase (a b : Char) : Bool := decide (a.toLower = b.toLower)

/-- Whether two character lists are equal ignoring case: they have the same
length and agree character by character ignoring case. -/
def equalsIgnoreCaseChars : List Char → List Char → Bool
  | [], [] => true
  | a :: as, b :: bs => sameCharIgnoreCase a b && equalsIgnoreCaseChars as bs
  | _, _ => false

/-- Whether two strings are equal ignoring case. -/
def equalsIgnoreCase (s t : String) : Bool := equalsIgnoreCaseChars s.data t.data

/-- Whether `v` is the beginning of `s`, ignoring case. -/
def startsWithIgnoreCase : List Char → List Char → Bool
  | _, [] => true
  | [], _ :: _ => false
  | c :: s, p :: v => sameCharIgnoreCase c p && startsWithIgnoreCase s v

/-- Whether `s` contains `v` as a substring, ignoring case. -/
def containsIgnoreCaseChars : List Char → List Char → Bool
  | [], v => startsWithIgnoreCase [] v
  | c :: s, v => startsWithIgnoreCase (c :: s) v || containsIgnoreCaseChars s v

/-- Whether the string `s` contains `v` as a substring, ignoring case. -/
def containsIgnoreCase (s v : String) : Bool := containsIgnoreCaseChars s.data v.data

/-- The characters with a special meaning in a regular-expression pattern:
backslash, caret, dollar, dot, bar, question mark, star, plus, the round, square
and curly brackets. -/
def isRegexMeta (c : Char) : Bool :=
  [92, 94, 36, 46, 124, 63, 42, 43, 40, 41, 91, 93, 123, 125].contains c.toNat

/-- Whether the pattern item `p`, an ordinary character or the dot, matches the
subject character `c`: the dot matches every character but a newline, an
ordinary character matches itself, and with the option `i` its other case. -/
def regexItemMatches (caseless : Bool) (p c : Char) : Bool :=
  if p = '.' then decide (c ≠ Char.ofNat 10)
  else if caseless then sameCharIgnoreCase c p
  else decide (c = p)

/-- Whether a pattern of ordinary characters and dots matches at the beginning of
the subject. -/
def regexMatchesAt (caseless : Bool) : List Char → List Char → Bool
  | _, [] => true
  | [], _ :: _ => false
  | c :: s, p :: ps => regexItemMatches caseless p c && regexMatchesAt caseless s ps

/-- Whether a pattern of ordinary characters and dots matches somewhere in the
subject: a pattern without anchors is searched for at every offset. -/
def regexSearch (caseless : Bool) : List Char → List Char → Bool
  | [], ps => regexMatchesAt caseless [] ps
  | c :: s, ps => regexMatchesAt caseless (c :: s) ps || regexSearch caseless s ps

/-- The store's test of a string value against `{ $regex: pattern, $options }`
(Perl-compatible regular expressions), for the patterns made of ordinary
characters and dots; `none` for a pattern that uses another metacharacter, which
this fragment does not interpret. -/
def regexAccepts (pattern options subject : String) : Option Bool :=
  if pattern.data.all fun c => c = '.' || !isRegexMeta c then
    some (regexSearch (options.data.contains 'i') subject.data pattern.data)
  else none

/-! ## Number operations, `parseInt` and pagination -/

/-- The comparison `a < b` of two numbers: false when either is `NaN`. -/
def JSNumber.lt : JSNumber → JSNumber → Bool
  | .nan, _ => false
  | _, .nan => false
  | .infinity a, .infinity b => a && !b
  | .infinity a, .finite _ => a
  | .finite _, .infinity b => !b
  | .finite x, .finite y => decide (x < y)

/-- The operator `a || b` on two numbers: `a` unless it is falsy (zero or `NaN`). -/
def JSNumber.or (a b : JSNumber) : JSNumber :=
  if truthy (.number a) then a else b

/-- The function `Math.max` of two numbers. -/
def mathMax : JSNumber → JSNumber → JSNumber
  | .nan, _ => .nan
  | _, .nan => .nan
  | a, b => if a.lt b then b else a

/-- The function `Math.ceil`. -/
def mathCeil : JSNumber → JSNumber
  | .finite x => .finite (⌈x⌉ : Int)
  | n => n

/-- The difference `a - b` of two numbers. -/
def JSNumber.sub : JSNumber → JSNumber → JSNumber
  | .nan, _ => .nan
  | _, .nan => .nan
  | .infinity a, .infinity b => if a = b then .nan else .infinity a
  | .infinity a, .finite _ => .infinity a
  | .finite _, .infinity b => .infinity (!b)
  | .finite x, .finite y => ofExact (x - y)

/-- The product `a * b` of two numbers. -/
def JSNumber.mul : JSNumber → JSNumber → JSNumber
  | .nan, _ => .nan
  | _, .nan => .nan
  | .infinity a, .infinity b => .infinity (xor a b)
  | .infinity a, .finite y => if y = 0 then .nan else .infinity (xor a (decide (y < 0)))
  | .finite x, .infinity b => if x = 0 then .nan else .infinity (xor b (decide (x < 0)))
  | .finite x, .finite y => ofExact (x * y)

/-- The quotient `a / b` of two numbers (a zero divisor is taken as `+0`). -/
def JSNumber.div : JSNumber → JSNumber → JSNumber
  | .nan, _ => .nan
  | _, .nan => .nan
  | .infinity _, .infinity _ => .nan
  | .infinity a, .finite y => .infinity (xor a (decide (y < 0)))
  | .finite _, .infinity _ => .finite 0
  | .finite x, .finite y =>
    if y = 0 then (if x = 0 then .nan else .infinity (decide (x < 0)))
    else ofExact (x / y)

/-- The string `ToString(value)`.  The text of a number (`Number::toString`) is
taken from the runtime as the function `numberToString`. -/
def toStringValue (numberToString : JSNumber → String) : JSValue → String
  | .undefined => "undefined"
  | .null => "null"
  | .boolean b => if b then "true" else "false"
  | .number n => numberToString n
  | .string s => s
  | v => objectToString v

/-- The integer a text starts with, as `parseInt(text, 10)` reads it: leading
white space is skipped, one sign is taken, then the longest run of decimal
digits; `none` when there is no digit. -/
def parseIntDigits (s : String) : Option Int :=
  let body := takeSign (trimStartChars s.data)
  match digits 10 (body.2.takeWhile Char.isDigit) with
  | some n => some (if body.1 then -(n : Int) else (n : Int))
  | none => none

/-- The call `parseInt(value, 10)`: `NaN` when the text of the value does not
start with an integer. -/
def parseInt (numberToString : JSNumber → String) (value : JSValue) : JSNumber :=
  match parseIntDigits (toStringValue numberToString value) with
  | some z => ofExact (z : ℚ)
  | none => .nan

/-- The page of `getLeads`: `Math.max(parseInt(req.query.page, 10) || 1, 1)`. -/
def resolvePage (numberToString : JSNumber → String) (q : Query) : JSNumber :=
  mathMax ((parseInt numberToString (q "page")).or (.finite 1)) (.finite 1)

/-- The limit of `getLeads`: `parseInt(req.query.limit, 10) || 20`, then the two
`if` statements. -/
def resolveLimit (numberToString : JSNumber → String) (q : Query) : JSNumber :=
  let limit := (parseInt numberToString (q "limit")).or (.finite 20)
  let limit := if (JSNumber.finite 100).lt limit then .finite 100 else limit
  let limit := if limit.lt (.finite 1) then .finite 20 else limit
  limit

/-- The value `totalPages` of `getLeads`: `Math.max(Math.ceil(total / limit), 1)`. -/
def totalPages (total limit : JSNumber) : JSNumber :=
  mathMax (mathCeil (total.div limit)) (.finite 1)

/-- The value `skip` of `getLeads`: `(page - 1) * limit`. -/
def skipOffset (page limit : JSNumber) : JSNumber :=
  (page.sub (.finite 1)).mul limit

/-- The numeral made of the digit 1 followed by `n` zeros. -/
def oneAndZeros (n : Nat) : String := String.mk ('1' :: List.replicate n '0')

/-! ## The request handlers and the repository -/

/-- A request body, an update or a document: the own keys of the object with
their values. -/
abbrev Body := List (String × JSValue)

/-- The value of an own key of the object, `none` when it has no such key. -/
def Body.lookup (body : Body) (key : String) : Option JSValue :=
  match body with
  | [] => none
  | (k, v) :: rest => if k = key then some v else Body.lookup rest key

/-- Reading `body[key]`: `undefined` when the object has no such key. -/
def Body.get (body : Body) (key : String) : JSValue :=
  match body.lookup key with
  | some v => v
  | none => .undefined

/-- The test `Object.prototype.hasOwnProperty.call(body, key)`. -/
def Body.hasOwn (body : Body) (key : String) : Bool :=
  (body.lookup key).isSome

/-- The assignment `payload[key] = v`: an existing key keeps its place. -/
def Body.set (body : Body) (key : String) (v : JSValue) : Body :=
  match body with
  | [] => [(key, v)]
  | (k, old) :: rest =>
    if k = key then (k, v) :: rest else (k, old) :: Body.set rest key v

/-- Modelled from the spec: the class `ApiError` of `utils/ApiError.js`, which is
not among the sources: the error a handler throws, with the status code and the
message it was constructed with. -/
structure ApiError where
  statusCode : Nat
  message : String
deriving DecidableEq

/-- Modelled from the spec: the class `ApiResponse` of `utils/ApiResponse.js`,
which is not among the sources: the response envelope, with the status code, the
data and the message it was constructed with. -/
structure ApiResponse where
  statusCode : Nat
  data : Body
  message : String
deriving DecidableEq

/-- What an awaited call of the repository settles to: a value, or a rejection
(a validation, cast or connection error of the store), which no handler
catches. -/
inductive Settled (α : Type)
  | resolved (value : α)
  | rejected (reason : String)
deriving DecidableEq

/-- The repository (the model `Lead`) as a handler sees it during one request:
what each call settles to.  A query by id resolves to `none` (`null`) when no
document has the id. -/
structure Repository where
  create : Body → Settled Body
  findById : JSValue → Settled (Option Body)
  findByIdAndUpdate : JSValue → Body → Settled (Option Body)
  findByIdAndDelete : JSValue → Settled (Option Body)

/-- A call a handler makes to the repository, with its arguments. -/
inductive RepositoryCall
  | create (doc : Body)
  | findById (id : JSValue)
  | findByIdAndUpdate (id : JSValue) (update : Body)
  | findByIdAndDelete (id : JSValue)
deriving DecidableEq

/-- How a handler ends: it sends a response with a status, it throws an
`ApiError`, or a rejection of the repository passes through it. -/
inductive Outcome
  | responded (status : Nat) (response : ApiResponse)
  | threw (error : ApiError)
  | rejected (reason : String)
deriving DecidableEq

/-- One run of a handler: the calls it made to the repository, in order, and how
it ended. -/
structure Run where
  calls : List RepositoryCall
  outcome : Outcome
deriving DecidableEq

/-- A destructuring default `name = d`: the default is taken when the property is
`undefined`. -/
def withDefault (v d : JSValue) : JSValue :=
  match v with
  | .undefined => d
  | _ => v

/-- The callback of `some` in `createLead`:
`field === undefined || field === null || (typeof field === 'string' && field.trim() === "")`. -/
def isMissingField (field : JSValue) : Bool :=
  match field with
  | .undefined => true
  | .null => true
  | .string s => decide (trim s = "")
  | _ => false

/-- The fields `createLead` requires, in the order of its array. -/
def requiredFields : List String :=
  ["first_name", "last_name", "email", "phone", "company", "city", "state", "source", "status",
    "lead_value"]

/-- Handler `createLead`. -/
def createLead (repo : Repository) (body : Body) : Run :=
  let first_name := body.get "first_name"
  let last_name := body.get "last_name"
  let email := body.get "email"
  let phone := body.get "phone"
  let company := body.get "company"
  let city := body.get "city"
  let state := body.get "state"
  let source := body.get "source"
  let status := body.get "status"
  let score := withDefault (body.get "score") (.number (.finite 0))
  let lead_value := body.get "lead_value"
  let last_activity_at := withDefault (body.get "last_activity_at") .null
  let is_qualified := withDefault (body.get "is_qualified") (.boolean false)
  if [first_name, last_name, email, phone, company, city, state, source, status,
      lead_value].any isMissingField then
    { calls := [], outcome := .threw ⟨400, "Please provide all required fields."⟩ }
  else
    let doc : Body :=
      [("first_name", first_name), ("last_name", last_name), ("email", email),
        ("phone", phone), ("company", company), ("city", city), ("state", state),
        ("source", source), ("status", status), ("score", score),
        ("lead_value", lead_value), ("last_activity_at", last_activity_at),
        ("is_qualified", is_qualified)]
    match repo.create doc with
    | .resolved lead =>
      { calls := [.create doc],
        outcome := .responded 201 ⟨201, lead, "Lead created successfully"⟩ }
    | .rejected reason => { calls := [.create doc], outcome := .rejected reason }

/-- Handler `getLeadById`. -/
def getLeadById (repo : Repository) (id : JSValue) : Run :=
  if !truthy id then
    { calls := [], outcome := .threw ⟨400, "Lead id is required"⟩ }
  else
    match repo.findById id with
    | .resolved none =>
      { calls := [.findById id], outcome := .threw ⟨404, "Lead not found"⟩ }
    | .resolved (some lead) =>
      { calls := [.findById id],
        outcome := .responded 200 ⟨200, lead, "Lead fetched successfully"⟩ }
    | .rejected reason => { calls := [.findById id], outcome := .rejected reason }

/-- The fields `updateLead` lets through, in the order of its array. -/
def updatableFields : List String :=
  ["first_name", "last_name", "email", "phone", "company", "city", "state", "source", "status",
    "score", "lead_value", "last_activity_at", "is_qualified"]

/-- The object `updatePayload` of `updateLead`: the loop over `updatableFields`. -/
def updatePayload (body : Body) : Body :=
  updatableFields.foldl
    (fun payload field => if body.hasOwn field then payload.set field (body.get field) else payload)
    []

/-- Handler `updateLead` (its console output is left out). -/
def updateLead (repo : Repository) (id : JSValue) (body : Body) : Run :=
  if !truthy id then
    { calls := [], outcome := .threw ⟨400, "Lead id is required"⟩ }
  else
    let payload := updatePayload body
    if payload.length = 0 then
      { calls := [], outcome := .threw ⟨400, "No valid fields provided for update"⟩ }
    else
      match repo.findByIdAndUpdate id payload with
      | .resolved none =>
        { calls := [.findByIdAndUpdate id payload], outcome := .threw ⟨404, "Lead not found"⟩ }
      | .resolved (some updatedLead) =>
        { calls := [.findByIdAndUpdate id payload],
          outcome := .responded 200 ⟨200, updatedLead, "Lead updated successfully"⟩ }
      | .rejected reason =>
        { calls := [.findByIdAndUpdate id payload], outcome := .rejected reason }

/-- Handler `deleteLead`. -/
def deleteLead (repo : Repository) (id : JSValue) : Run :=
  if !truthy id then
    { calls := [], outcome := .threw ⟨400, "Lead id is required"⟩ }
  else
    match repo.findByIdAndDelete id with
    | .resolved none =>
      { calls := [.findByIdAndDelete id], outcome := .threw ⟨404, "Lead not found"⟩ }
    | .resolved (some _) =>
      { calls := [.findByIdAndDelete id],
        outcome := .responded 200 ⟨200, [], "Lead deleted successfully"⟩ }
    | .rejected reason => { calls := [.findByIdAndDelete id], outcome := .rejected reason }

/-- A repository that holds no document: `create` stores what it is given, every
query by id resolves to `null`. -/
def emptyRepository : Repository :=
  { create := fun doc => .resolved doc,
    findById := fun _ => .resolved none,
    findByIdAndUpdate := fun _ _ => .resolved none,
    findByIdAndDelete := fun _ => .resolved none }

/-- A repository that holds the document `lead` under every id. -/
def repositoryWith (lead : Body) : Repository :=
  { create := fun doc => .resolved doc,
    findById := fun _ => .resolved (some lead),
    findByIdAndUpdate := fun _ update => .resolved (some (update ++ lead)),
    findByIdAndDelete := fun _ => .resolved (some lead) }

/-! ## The filter construction with the exceptions of the runtime -/

/-- An exception of the runtime: the `TypeError` raised when a method is called on
a value that does not have it, or when an object does not convert to a
primitive. -/
inductive JSError
  | typeError (message : String)
deriving DecidableEq

/-- The method call `value.toLowerCase()`: only a string has the method. -/
def callToLowerCase : JSValue → Except JSError String
  | .string s => .ok (toLowerCase s)
  | _ => .error (.typeError "value.toLowerCase is not a function")

/-- The method call `value.split(",")`: only a string has the method. -/
def callSplitComma : JSValue → Except JSError (List String)
  | .string s => .ok (splitComma s)
  | _ => .error (.typeError "value.split is not a function")

/-- The method call `value.trim()`: only a string has the method. -/
def callTrim : JSValue → Except JSError String
  | .string s => .ok (trim s)
  | _ => .error (.typeError "value.trim is not a function")

/-- The call `Number(value)` with its exception: a `TypeError` when the value does
not convert to a primitive. -/
def toNumberChecked (value : JSValue) : Except JSError JSNumber :=
  if toPrimitiveRaises value then
    .error (.typeError "Cannot convert object to primitive value")
  else .ok (toNumber value)

/-- The call `new Date(value)` with its exception: a `TypeError` when the value
does not convert to a primitive. -/
def newDateChecked (rt : Runtime) (value : JSValue) : Except JSError (Option Int) :=
  if toPrimitiveRaises value then
    .error (.typeError "Cannot convert object to primitive value")
  else .ok (newDate rt value)

/-- The call `parseInt(value, 10)` with its exception: a `TypeError` when the
value does not convert to a primitive, which the conversion to a string starts
with. -/
def parseIntChecked (numberToString : JSNumber → String) (value : JSValue) :
    Except JSError JSNumber :=
  if toPrimitiveRaises value then
    .error (.typeError "Cannot convert object to primitive value")
  else .ok (parseInt numberToString value)

/-- Helper `parseNumber` with the exception of `Number(value)`. -/
def parseNumberChecked (value : JSValue) : Except JSError (Option ℚ) := do
  let num ← toNumberChecked value
  match num with
  | .finite x => pure (some x)
  | _ => pure none

/-- Helper `parseDate` with the exception of `new Date(value)`. -/
def parseDateChecked (rt : Runtime) (value : JSValue) : Except JSError (Option Int) :=
  newDateChecked rt value

/-- The date a parameter gives, as the statements `if (val) { const d =
parseDate(val); ... }` of the date loop read it: `parseDate` is called when the
value is truthy, whatever its type, and not called otherwise. -/
def dateParameterChecked (rt : Runtime) (value : JSValue) : Except JSError (Option Int) :=
  if truthy value then parseDateChecked rt value else pure none

/-- Helper `parseBoolean` with its method call: `toLowerCase` is called on the
value under the test `typeof value === "string"`. -/
def parseBooleanChecked (value : JSValue) : Except JSError (Option Bool) :=
  match value with
  | .boolean b => pure (some b)
  | _ =>
    if isString value then do
      let v ← callToLowerCase value
      if v = "true" then pure (some true)
      else if v = "false" then pure (some false)
      else pure none
    else pure none

/-- Body of the loop over `enumFields` with its method calls: `split` is called
on `inVal` under the test `inVal && typeof inVal === "string"`, `trim` on each
element of the array that `split` returned. -/
def enumConstraintChecked (q : Query) (field : String) : Except JSError (Option Constraint) :=
  let eqVal := q field
  let inVal := q (field ++ "_in")
  if truthy eqVal && isString eqVal then
    pure (some (.eq eqVal))
  else if truthy inVal && isString inVal then do
    let tokens ← callSplitComma inVal
    let trimmed ← tokens.mapM fun s => callTrim (.string s)
    let parts := trimmed.filter fun s => truthy (.string s)
    if parts.length > 0 then pure (some (.isIn parts)) else pure none
  else pure none

/-- Body of the loop over `numberFields` with its calls: `Number` is called by
`parseNumber` on the three parameters as they are, without a test, and on the
two tokens; `split` is called on `betweenVal` under the test
`betweenVal && typeof betweenVal === "string"`. -/
def numberConstraintChecked (q : Query) (field : String) :
    Except JSError (Option Constraint) := do
  let eqVal ← parseNumberChecked (q field)
  let gtVal ← parseNumberChecked (q (field ++ "_gt"))
  let ltVal ← parseNumberChecked (q (field ++ "_lt"))
  let betweenVal := q (field ++ "_between")
  match eqVal with
  | some n => pure (some (.eq (.number (.finite n))))
  | none =>
    let range : NumberRange := {}
    let range := match gtVal with
      | some a => { range with gt := some a }
      | none => range
    let range := match ltVal with
      | some b => { range with lt := some b }
      | none => range
    let range ←
      if truthy betweenVal && isString betweenVal then do
        let tokens ← callSplitComma betweenVal
        let parts ← tokens.mapM fun s => callTrim (.string s)
        let min ← parseNumberChecked (element parts 0)
        let max ← parseNumberChecked (element parts 1)
        let range := match min with
          | some c => { range with gte := some c }
          | none => range
        match max with
        | some d => pure { range with lte := some d }
        | none => pure range
      else pure range
    if range.keyCount > 0 then pure (some (.numberRange range)) else pure none

/-- Body of the loop over `dateFields` with its calls: `new Date` is called by
`parseDate` on `onVal`, `beforeVal` and `afterVal` when they are truthy, whatever
their type, and on the two tokens; `split` is called on `betweenVal` under the
test `betweenVal && typeof betweenVal === "string"`. -/
def dateConstraintChecked (rt : Runtime) (q : Query) (field : String) :
    Except JSError (Option Constraint) := do
  let onVal := q (field ++ "_on")
  let beforeVal := q (field ++ "_before")
  let afterVal := q (field ++ "_after")
  let betweenVal := q (field ++ "_between")
  let range : DateRange := {}
  let onDate ← dateParameterChecked rt onVal
  match onDate with
  | some d =>
    let start := setHours rt d 0 0 0 0
    let stop := setHours rt d 23 59 59 999
    pure (some (.dateRange { gte := some start, lte := some stop }))
  | none =>
    let beforeDate ← dateParameterChecked rt beforeVal
    let range := match beforeDate with
      | some d => { range with lt := some (.time d) }
      | none => range
    let afterDate ← dateParameterChecked rt afterVal
    let range := match afterDate with
      | some d => { range with gt := some (.time d) }
      | none => range
    let range ←
      if truthy betweenVal && isString betweenVal then do
        let tokens ← callSplitComma betweenVal
        let parts ← tokens.mapM fun s => callTrim (.string s)
        let fromDate ← parseDateChecked rt (element parts 0)
        let toDate ← parseDateChecked rt (element parts 1)
        let range := match fromDate with
          | some d => { range with gte := some (.time d) }
          | none => range
        match toDate with
        | some d => pure { range with lte := some (.time d) }
        | none => pure range
      else pure range
    if range.keyCount > 0 then pure (some (.dateRange range)) else pure none

/-- The statement on `is_qualified` with the method call of `parseBoolean`. -/
def booleanConstraintChecked (q : Query) : Except JSError (Option Constraint) :=
  if q "is_qualified" ≠ .undefined then do
    match ← parseBooleanChecked (q "is_qualified") with
    | some bool => pure (some (.eq (.boolean bool)))
    | none => pure none
  else pure none

/-- The filter construction of `getLeads` with the calls it makes on request
values (`toLowerCase`, `split`, `trim`, `Number`, `new Date`): the result, or the
exception that ends it.  The loop over `stringFields` makes no call. -/
def getLeadsFilterChecked (rt : Runtime) (q : Query) : Except JSError Filter := do
  let filter : Filter := []
  let filter ← stringFields.foldlM
    (fun filter field => pure (filter.assign field (stringConstraint q field))) filter
  let filter ← enumFields.foldlM
    (fun filter field => do
      let c ← enumConstraintChecked q field
      pure (filter.assign field c)) filter
  let filter ← numberFields.foldlM
    (fun filter field => do
      let c ← numberConstraintChecked q field
      pure (filter.assign field c)) filter
  let filter ← dateFields.foldlM
    (fun filter field => do
      let c ← dateConstraintChecked rt q field
      pure (filter.assign field c)) filter
  let c ← booleanConstraintChecked q
  pure (filter.assign "is_qualified" c)

/-! ## The filterable fields and their parameters -/

/-- The keys of the filter object, `Object.keys(filter)`. -/
def Filter.keys (filter : Filter) : List String := filter.map Prod.fst

/-- The ten filterable fields of the specification. -/
def filterableFields : List String :=
  ["email", "company", "city", "status", "source", "score", "lead_value", "created_at",
    "last_activity_at", "is_qualified"]

/-- The query parameters of a filterable field, after the operator families of the
specification: exact and `_contains` for a string field, exact and `_in` for an
enum field, exact, `_gt`, `_lt` and `_between` for a number field, `_on`,
`_before`, `_after` and `_between` for a date field, the field itself for
`is_qualified`. -/
def parametersOf (field : String) : List String :=
  if field ∈ stringFields then [field, field ++ "_contains"]
  else if field ∈ enumFields then [field, field ++ "_in"]
  else if field ∈ numberFields then
    [field, field ++ "_gt", field ++ "_lt", field ++ "_between"]
  else if field ∈ dateFields then
    [field ++ "_on", field ++ "_before", field ++ "_after", field ++ "_between"]
  else if field = "is_qualified" then ["is_qualified"]
  else []

/-! # Theorems -/

/-! ## Reading the filter -/

theorem Filter.get_set (filter : Filter) (field key : String) (c : Constraint) :
    (filter.set field c).get key = if field = key then some c else filter.get key := by
  induction filter with
  | nil => simp [Filter.set, Filter.get]
  | cons p rest ih =>
    obtain ⟨k, old⟩ := p
    by_cases hk : k = field
    · subst hk
      by_cases hkey : k = key <;> simp [Filter.set, Filter.get, hkey]
    · by_cases hkey : k = key
      · subst hkey
        have : ¬ field = k := fun h => hk h.symm
        simp [Filter.set, Filter.get, hk, this]
      · simp [Filter.set, Filter.get, hk, hkey, ih]

theorem Filter.get_assign (filter : Filter) (field key : String) (c : Option Constraint) :
    (filter.assign field c).get key
      = if field = key then (c.orElse fun _ => filter.get key) else filter.get key := by
  cases c with
  | none => by_cases h : field = key <;> simp [Filter.assign, h]
  | some c => by_cases h : field = key <;> simp [Filter.assign, Filter.get_set, h]

theorem Filter.get_foldl_assign (body : String → Option Constraint) (fields : List String)
    (filter : Filter) (key : String) :
    (fields.foldl (fun filter field => filter.assign field (body field)) filter).get key
      = if key ∈ fields then ((body key).orElse fun _ => filter.get key) else filter.get key := by
  induction fields generalizing filter with
  | nil => simp
  | cons f rest ih =>
    rw [List.foldl_cons, ih, Filter.get_assign]
    by_cases hf : f = key
    · subst hf
      by_cases hr : f ∈ rest
      · cases hb : body f <;> simp [hr, hb]
      · simp [hr]
    · have : ¬ key = f := fun h => hf h.symm
      simp [hf, this]

/-- The value the filter of `getLeads` holds under a key: the result of the loop
body of the family the key belongs to, and nothing under any other key. -/
theorem getLeadsFilter_get (rt : Runtime) (q : Query) (key : String) :
    (getLeadsFilter rt q).get key =
      if key = "is_qualified" then booleanConstraint q
      else if key ∈ dateFields then dateConstraint rt q key
      else if key ∈ numberFields then numberConstraint q key
      else if key ∈ enumFields then enumConstraint q key
      else if key ∈ stringFields then stringConstraint q key
      else none := by
  simp only [getLeadsFilter, Filter.get_assign, Filter.get_foldl_assign]
  by_cases hb : key = "is_qualified"
  · subst hb
    have e1 : ("is_qualified" ∈ dateFields) = False := by decide
    have e2 : ("is_qualified" ∈ numberFields) = False := by decide
    have e3 : ("is_qualified" ∈ enumFields) = False := by decide
    have e4 : ("is_qualified" ∈ stringFields) = False := by decide
    simp only [e1, e2, e3, e4, if_true, if_false]
    cases booleanConstraint q <;> simp [Filter.get]
  · have hb2 : ¬ "is_qualified" = key := fun h => hb h.symm
    simp only [if_neg hb, if_neg hb2]
    by_cases hd : key ∈ dateFields
    · have e2 : key ∉ numberFields := by
        simp only [dateFields, List.mem_cons, List.mem_singleton, List.mem_nil_iff, or_false] at hd
        rcases hd with rfl | rfl <;> decide
      have e3 : key ∉ enumFields := by
        simp only [dateFields, List.mem_cons, List.mem_singleton, List.mem_nil_iff, or_false] at hd
        rcases hd with rfl | rfl <;> decide
      have e4 : key ∉ stringFields := by
        simp only [dateFields, List.mem_cons, List.mem_singleton, List.mem_nil_iff, or_false] at hd
        rcases hd with rfl | rfl <;> decide
      simp only [if_pos hd, if_neg e2, if_neg e3, if_neg e4]
      cases dateConstraint rt q key <;> simp [Filter.get]
    · simp only [if_neg hd]
      by_cases hn : key ∈ numberFields
      · have e3 : key ∉ enumFields := by
          simp only [numberFields, List.mem_cons, List.mem_singleton, List.mem_nil_iff, or_false] at hn
          rcases hn with rfl | rfl <;> decide
        have e4 : key ∉ stringFields := by
          simp only [numberFields, List.mem_cons, List.mem_singleton, List.mem_nil_iff, or_false] at hn
          rcases hn with rfl | rfl <;> decide
        simp only [if_pos hn, if_neg e3, if_neg e4]
        cases numberConstraint q key <;> simp [Filter.get]
      · simp only [if_neg hn]
        by_cases he : key ∈ enumFields
        · have e4 : key ∉ stringFields := by
            simp only [enumFields, List.mem_cons, List.mem_singleton, List.mem_nil_iff, or_false] at he
            rcases he with rfl | rfl <;> decide
          simp only [if_pos he, if_neg e4]
          cases enumConstraint q key <;> simp [Filter.get]
        · simp only [if_neg he]
          by_cases hs : key ∈ stringFields
          · simp only [if_pos hs]
            cases stringConstraint q key <;> simp [Filter.get]
          · simp [if_neg hs, Filter.get]

theorem getLeadsFilter_get_string (rt : Runtime) (q : Query) (field : String)
    (h : field ∈ stringFields) :
    (getLeadsFilter rt q).get field = stringConstraint q field := by
  rw [getLeadsFilter_get]
  simp only [stringFields, List.mem_cons, List.mem_singleton, List.mem_nil_iff, or_false] at h
  rcases h with rfl | rfl | rfl <;> simp [dateFields, numberFields, enumFields, stringFields]

theorem getLeadsFilter_get_enum (rt : Runtime) (q : Query) (field : String)
    (h : field ∈ enumFields) :
    (getLeadsFilter rt q).get field = enumConstraint q field := by
  rw [getLeadsFilter_get]
  simp only [enumFields, List.mem_cons, List.mem_singleton, List.mem_nil_iff, or_false] at h
  rcases h with rfl | rfl <;> simp [dateFields, numberFields, enumFields]

theorem getLeadsFilter_get_number (rt : Runtime) (q : Query) (field : String)
    (h : field ∈ numberFields) :
    (getLeadsFilter rt q).get field = numberConstraint q field := by
  rw [getLeadsFilter_get]
  simp only [numberFields, List.mem_cons, List.mem_singleton, List.mem_nil_iff, or_false] at h
  rcases h with rfl | rfl <;> simp [dateFields, numberFields]

theorem getLeadsFilter_get_date (rt : Runtime) (q : Query) (field : String)
    (h : field ∈ dateFields) :
    (getLeadsFilter rt q).get field = dateConstraint rt q field := by
  rw [getLeadsFilter_get]
  simp only [dateFields, List.mem_cons, List.mem_singleton, List.mem_nil_iff, or_false] at h
  rcases h with rfl | rfl <;> simp [dateFields]

theorem getLeadsFilter_get_boolean (rt : Runtime) (q : Query) :
    (getLeadsFilter rt q).get "is_qualified" = booleanConstraint q := by
  rw [getLeadsFilter_get]; simp

/-! ## Numeric fields -/

theorem parseNumber_empty : parseNumber (.string "") = some 0 := by
  have h : stringToNumber "" = .finite 0 := by decide
  simp [parseNumber, toNumber, h]

theorem parseNumber_spaces : parseNumber (.string "   ") = some 0 := by
  have h : stringToNumber "   " = .finite 0 := by decide
  simp [parseNumber, toNumber, h]

theorem parseNumber_undefined : parseNumber .undefined = none := by
  simp [parseNumber, toNumber]

/-- C1, evaluated where it fails: the parameter `score` is the empty string (the
query `?score=`).  `parseNumber` reads the empty string, and a string of spaces,
as the number 0, and the filter constrains `score` to equal 0 instead of leaving
it unconstrained. -/
theorem C1_empty_score_is_read_as_zero (rt : Runtime) :
    parseNumber (.string "") = some 0
      ∧ parseNumber (.string "   ") = some 0
      ∧ (getLeadsFilter rt (Query.ofList [("score", .string "")])).get "score"
          = some (.eq (.number (.finite 0))) := by
  refine ⟨parseNumber_empty, parseNumber_spaces, ?_⟩
  rw [getLeadsFilter_get_number rt _ "score" (by decide)]
  have h : Query.ofList [("score", .string "")] "score" = .string "" := by decide
  simp [numberConstraint, h, parseNumber_empty]

theorem parseNumber_decimal (s : String) (m : Nat) (e : Int)
    (h : parseStrNumericLiteral s = some (.decimal false m e))
    (hb : |(m : ℚ) * (10 : ℚ) ^ e| < overflowBound) :
    parseNumber (.string s) = some ((m : ℚ) * (10 : ℚ) ^ e) := by
  simp [parseNumber, toNumber, stringToNumber, h, stringNumericValue, ofExact, hb]

theorem parseNumber_75 : parseNumber (.string "75") = some 75 := by
  have h := parseNumber_decimal "75" 75 0 (by decide) (by norm_num [overflowBound, abs_lt])
  simpa using h

theorem parseNumber_50 : parseNumber (.string "50") = some 50 := by
  have h := parseNumber_decimal "50" 50 0 (by decide) (by norm_num [overflowBound, abs_lt])
  simpa using h

theorem parseNumber_80 : parseNumber (.string "80") = some 80 := by
  have h := parseNumber_decimal "80" 80 0 (by decide) (by norm_num [overflowBound, abs_lt])
  simpa using h

/-- C2: for a number field whose exact parameter parses to the finite number `n`,
the filter holds the literal `n` under the field, equality with `n` and nothing
else, and it does so for every query with the same exact parameter, whatever its
`_gt`, `_lt` and `_between` parameters are. -/
theorem C2_exact_number_overrides (rt : Runtime) (q : Query) (field : String) (n : ℚ)
    (hfield : field ∈ numberFields) (hparse : parseNumber (q field) = some n) :
    (getLeadsFilter rt q).get field = some (.eq (.number (.finite n)))
      ∧ ∀ q2 : Query, q2 field = q field →
          (getLeadsFilter rt q2).get field = some (.eq (.number (.finite n))) := by
  have key : ∀ q2 : Query, parseNumber (q2 field) = some n →
      (getLeadsFilter rt q2).get field = some (.eq (.number (.finite n))) := by
    intro q2 h2
    rw [getLeadsFilter_get_number rt q2 field hfield]
    simp [numberConstraint, h2]
  exact ⟨key q hparse, fun q2 h2 => key q2 (by rw [h2]; exact hparse)⟩

/-- C2 at `score=75&score_gt=50&score_lt=80&score_between=50,80`: the filter
holds the literal 75 under `score`. -/
theorem C2_exact_number_overrides_witness :
    "score" ∈ numberFields
      ∧ parseNumber (Query.ofList [("score", .string "75"), ("score_gt", .string "50"),
          ("score_lt", .string "80"), ("score_between", .string "50,80")] "score") = some 75
      ∧ (getLeadsFilter (runtimeAt 0 fun _ => none)
          (Query.ofList [("score", .string "75"), ("score_gt", .string "50"),
            ("score_lt", .string "80"), ("score_between", .string "50,80")])).get "score"
          = some (.eq (.number (.finite 75))) :=
  ⟨by decide, parseNumber_75,
    (C2_exact_number_overrides (runtimeAt 0 fun _ => none) _ "score" 75 (by decide)
      parseNumber_75).1⟩

/-- The range object the number loop builds when the exact parameter does not
parse. -/
theorem numberConstraint_range (q : Query) (field : String)
    (hexact : parseNumber (q field) = none) :
    ∃ r : NumberRange,
      numberConstraint q field = (if r.keyCount > 0 then some (.numberRange r) else none)
        ∧ r.gt = parseNumber (q (field ++ "_gt"))
        ∧ r.lt = parseNumber (q (field ++ "_lt"))
        ∧ r.gte = (match q (field ++ "_between") with
            | .string text => if text ≠ "" then parseNumber (token text 0) else none
            | _ => none)
        ∧ r.lte = (match q (field ++ "_between") with
            | .string text => if text ≠ "" then parseNumber (token text 1) else none
            | _ => none) := by
  refine ⟨{ gt := parseNumber (q (field ++ "_gt")),
            lt := parseNumber (q (field ++ "_lt")),
            gte := match q (field ++ "_between") with
              | .string text => if text ≠ "" then parseNumber (token text 0) else none
              | _ => none,
            lte := match q (field ++ "_between") with
              | .string text => if text ≠ "" then parseNumber (token text 1) else none
              | _ => none }, ?_, rfl, rfl, rfl, rfl⟩
  have hne : ∀ text : String, (text.data = []) ↔ text = "" := by
    intro text
    constructor
    · intro h; exact String.ext h
    · intro h; rw [h]
  unfold numberConstraint
  simp only [hexact]
  cases hgt : parseNumber (q (field ++ "_gt")) <;>
  cases hlt : parseNumber (q (field ++ "_lt")) <;>
  cases hbw : q (field ++ "_between") <;>
  simp only [truthy, token] <;>
  first
  | rfl
  | (rename_i text
     by_cases hte : text = ""
     · subst hte; simp
     · have hd : ¬ text.data = [] := fun h => hte ((hne text).1 h)
       simp only [hd, hte, decide_not, decide_False, Bool.not_false, if_true, ne_eq,
         not_false_eq_true]
       cases parseNumber (element ((splitComma text).map trim) 0) <;>
       cases parseNumber (element ((splitComma text).map trim) 1) <;> rfl)

theorem NumberRange.accepts_iff (r : NumberRange) (v : ℚ) :
    r.accepts v = true ↔
      (∀ a, r.gt = some a → a < v) ∧ (∀ b, r.lt = some b → v < b)
        ∧ (∀ c, r.gte = some c → c ≤ v) ∧ (∀ d, r.lte = some d → v ≤ d) := by
  obtain ⟨gt, lt, gte, lte⟩ := r
  cases gt <;> cases lt <;> cases gte <;> cases lte <;>
    simp [NumberRange.accepts, and_assoc]

theorem numberRange_keyCount_eq_zero (r : NumberRange) :
    ¬ r.keyCount > 0 ↔ r.gt = none ∧ r.lt = none ∧ r.gte = none ∧ r.lte = none := by
  obtain ⟨gt, lt, gte, lte⟩ := r
  cases gt <;> cases lt <;> cases gte <;> cases lte <;> simp [NumberRange.keyCount]

/-- C3, evaluated where it fails.  With `score_gt` the empty string, which holds
no number, the handler still places the exclusive lower bound 0 on `score`,
because `parseNumber` reads blank text as 0 (the defect of C1); a lead with
score 0 no longer passes.  With `score_between` one space, whose only token is
empty, it places the inclusive lower bound 0. -/
theorem C3_blank_bound_is_read_as_zero :
    parseNumber (Query.ofList [("score_gt", .string "")] "score") = none
      ∧ isBlank "" = true
      ∧ (getLeadsFilter (runtimeAt 0 fun _ => none)
          (Query.ofList [("score_gt", .string "")])).get "score"
          = some (.numberRange { gt := some 0 })
      ∧ acceptsNumber ((getLeadsFilter (runtimeAt 0 fun _ => none)
          (Query.ofList [("score_gt", .string "")])).get "score") 0 = false
      ∧ isBlank " " = true
      ∧ token " " 0 = .string ""
      ∧ (getLeadsFilter (runtimeAt 0 fun _ => none)
          (Query.ofList [("score_between", .string " ")])).get "score"
          = some (.numberRange { gte := some 0 }) := by
  have hgt : (getLeadsFilter (runtimeAt 0 fun _ => none)
      (Query.ofList [("score_gt", .string "")])).get "score"
      = some (.numberRange { gt := some 0 }) := by
    rw [getLeadsFilter_get_number _ _ "score" (by decide)]
    have h0 : Query.ofList [("score_gt", .string "")] "score" = .undefined := by decide
    have h1 : Query.ofList [("score_gt", .string "")] ("score" ++ "_gt") = .string "" := by
      decide
    have h2 : Query.ofList [("score_gt", .string "")] ("score" ++ "_lt") = .undefined := by
      decide
    have h3 : Query.ofList [("score_gt", .string "")] ("score" ++ "_between") = .undefined := by
      decide
    unfold numberConstraint
    rw [h0, h1, h2, h3]
    simp [parseNumber_empty, parseNumber_undefined, NumberRange.keyCount]
  have hbw : (getLeadsFilter (runtimeAt 0 fun _ => none)
      (Query.ofList [("score_between", .string " ")])).get "score"
      = some (.numberRange { gte := some 0 }) := by
    rw [getLeadsFilter_get_number _ _ "score" (by decide)]
    have h0 : Query.ofList [("score_between", .string " ")] "score" = .undefined := by decide
    have h1 : Query.ofList [("score_between", .string " ")] ("score" ++ "_gt") = .undefined := by
      decide
    have h2 : Query.ofList [("score_between", .string " ")] ("score" ++ "_lt") = .undefined := by
      decide
    have h3 : Query.ofList [("score_between", .string " ")] ("score" ++ "_between")
        = .string " " := by decide
    have e0 : element ((splitComma " ").map trim) 0 = .string "" := by decide
    have e1 : element ((splitComma " ").map trim) 1 = .undefined := by decide
    have ht : truthy (.string " ") = true := by decide
    unfold numberConstraint
    rw [h0, h1, h2, h3]
    simp [parseNumber_empty, parseNumber_undefined, NumberRange.keyCount, e0, e1, ht]
  refine ⟨parseNumber_undefined, by decide, hgt, ?_, by decide, by decide, hbw⟩
  rw [hgt]
  simp [acceptsNumber, NumberRange.accepts]

/-- The range object of a number field in terms of the helper `parseNumber` as it
is, its reading of blank text included: when the exact parameter does not parse,
the filter holds one range object `r` under the field, or nothing when `r` has
no key; `r.gt` is what `parseNumber` gives for `_gt`, `r.lt` what it gives for
`_lt`, `r.gte` and `r.lte` what it gives for the first and the second trimmed
token of a `_between` that is a non-empty string; a value passes the filter on
the field iff it satisfies every bound of `r`. -/
theorem numberConstraint_bounds (rt : Runtime) (q : Query) (field : String)
    (hfield : field ∈ numberFields) (hexact : parseNumber (q field) = none) :
    ∃ r : NumberRange,
      (getLeadsFilter rt q).get field = (if r.keyCount > 0 then some (.numberRange r) else none)
        ∧ (∀ a, r.gt = some a ↔ parseNumber (q (field ++ "_gt")) = some a)
        ∧ (∀ b, r.lt = some b ↔ parseNumber (q (field ++ "_lt")) = some b)
        ∧ (∀ c, r.gte = some c ↔
            ∃ text, q (field ++ "_between") = .string text ∧ text ≠ ""
              ∧ parseNumber (token text 0) = some c)
        ∧ (∀ d, r.lte = some d ↔
            ∃ text, q (field ++ "_between") = .string text ∧ text ≠ ""
              ∧ parseNumber (token text 1) = some d)
        ∧ ∀ v, acceptsNumber ((getLeadsFilter rt q).get field) v = true ↔
            (∀ a, r.gt = some a → a < v) ∧ (∀ b, r.lt = some b → v < b)
              ∧ (∀ c, r.gte = some c → c ≤ v) ∧ (∀ d, r.lte = some d → v ≤ d) := by
  rw [getLeadsFilter_get_number rt q field hfield]
  obtain ⟨r, hget, hgt, hlt, hgte, hlte⟩ := numberConstraint_range q field hexact
  refine ⟨r, hget, ?_, ?_, ?_, ?_, ?_⟩
  · intro a; rw [hgt]
  · intro b; rw [hlt]
  · intro c
    rw [hgte]
    cases hbw : q (field ++ "_between") <;> simp
  · intro d
    rw [hlte]
    cases hbw : q (field ++ "_between") <;> simp
  · intro v
    rw [hget]
    by_cases hk : r.keyCount > 0
    · simp only [hk, if_true, acceptsNumber]
      exact NumberRange.accepts_iff r v
    · simp only [hk, if_false, acceptsNumber, true_iff]
      obtain ⟨h1, h2, h3, h4⟩ := (numberRange_keyCount_eq_zero r).1 hk
      simp [h1, h2, h3, h4]

/-! ## String and enum fields -/

theorem string_eq_empty_iff (s : String) : s.data = [] ↔ s = "" :=
  ⟨fun h => String.ext h, fun h => by rw [h]⟩

theorem trimChars_nil : trimChars [] = [] := rfl

theorem head?_trimStartChars (cs : List Char) (c : Char)
    (h : (trimStartChars cs).head? = some c) : isStrWhiteSpaceChar c = false := by
  have := List.head?_dropWhile_not isStrWhiteSpaceChar cs
  unfold trimStartChars at h
  rw [h] at this
  simpa using this

theorem getLast?_trimEndChars (cs : List Char) (c : Char)
    (h : (trimEndChars cs).getLast? = some c) : isStrWhiteSpaceChar c = false := by
  unfold trimEndChars at h
  rw [List.getLast?_reverse] at h
  have := List.head?_dropWhile_not isStrWhiteSpaceChar cs.reverse
  rw [h] at this
  simpa using this

theorem trimEndChars_prefix (cs : List Char) : trimEndChars cs <+: cs := by
  unfold trimEndChars
  have h := List.dropWhile_suffix (l := cs.reverse) isStrWhiteSpaceChar
  rw [← List.reverse_prefix] at h
  simpa using h

theorem head?_trimEndChars (cs : List Char) (c : Char)
    (h : (trimEndChars cs).head? = some c) : cs.head? = some c := by
  obtain ⟨rest, hrest⟩ := trimEndChars_prefix cs
  cases hx : trimEndChars cs with
  | nil => rw [hx] at h; simp at h
  | cons a as =>
    rw [hx] at h hrest
    rw [← hrest]
    simpa using h

theorem head?_trimChars (cs : List Char) (c : Char) (h : (trimChars cs).head? = some c) :
    isStrWhiteSpaceChar c = false :=
  head?_trimStartChars cs c (head?_trimEndChars _ c h)

theorem getLast?_trimChars (cs : List Char) (c : Char) (h : (trimChars cs).getLast? = some c) :
    isStrWhiteSpaceChar c = false :=
  getLast?_trimEndChars _ c h

theorem trimEndChars_eq_nil_iff (cs : List Char) :
    trimEndChars cs = [] ↔ ∀ c ∈ cs, isStrWhiteSpaceChar c = true := by
  unfold trimEndChars
  rw [List.reverse_eq_nil_iff, List.dropWhile_eq_nil_iff]
  simp

theorem trimChars_eq_nil_iff (cs : List Char) :
    trimChars cs = [] ↔ ∀ c ∈ cs, isStrWhiteSpaceChar c = true := by
  unfold trimChars
  rw [trimEndChars_eq_nil_iff]
  constructor
  · intro h
    have hnil : trimStartChars cs = [] := by
      cases hx : trimStartChars cs with
      | nil => rfl
      | cons a as =>
        have h1 : isStrWhiteSpaceChar a = false := head?_trimStartChars cs a (by rw [hx]; rfl)
        have h2 := h a (by rw [hx]; exact List.mem_cons_self a as)
        rw [h1] at h2
        exact absurd h2 (by decide)
    unfold trimStartChars at hnil
    exact List.dropWhile_eq_nil_iff.1 hnil
  · intro h c hc
    exact h c ((List.dropWhile_suffix isStrWhiteSpaceChar).subset hc)

theorem splitCommaChars_ne_nil (cs : List Char) : splitCommaChars cs ≠ [] := by
  cases cs with
  | nil => simp [splitCommaChars]
  | cons a as =>
    unfold splitCommaChars
    split
    · simp
    · split <;> simp

theorem forall_mem_splitCommaChars (P : Char → Prop) (cs : List Char) :
    (∀ t ∈ splitCommaChars cs, ∀ c ∈ t, P c) ↔ ∀ c ∈ cs, c = ',' ∨ P c := by
  induction cs with
  | nil => simp [splitCommaChars]
  | cons a as ih =>
    by_cases ha : a = ','
    · subst ha
      simp only [splitCommaChars, if_true, List.mem_cons, forall_eq_or_imp, List.not_mem_nil,
        false_implies, implies_true, true_and, true_or]
      exact ih
    · cases hs : splitCommaChars as with
      | nil => exact absurd hs (splitCommaChars_ne_nil as)
      | cons t ts =>
        rw [hs] at ih
        simp only [splitCommaChars, ha, if_false, hs, List.mem_cons, forall_eq_or_imp, false_or]
        simp only [List.mem_cons, forall_eq_or_imp] at ih
        constructor
        · rintro ⟨⟨h1, h2⟩, h3⟩
          exact ⟨h1, ih.1 ⟨h2, h3⟩⟩
        · rintro ⟨h1, h2⟩
          exact ⟨⟨h1, (ih.2 h2).1⟩, (ih.2 h2).2⟩

theorem inTokens_eq_nil_iff (text : String) :
    inTokens text = [] ↔ ∀ c ∈ text.data, c = ',' ∨ isStrWhiteSpaceChar c = true := by
  rw [← forall_mem_splitCommaChars (fun c => isStrWhiteSpaceChar c = true)]
  unfold inTokens splitComma
  rw [List.filter_eq_nil_iff]
  simp only [List.map_map, List.mem_map, Function.comp, forall_exists_index, and_imp,
    forall_apply_eq_imp_iff₂, decide_not, Bool.not_eq_true', decide_eq_false_iff_not,
    Decidable.not_not]
  constructor
  · intro h t ht
    have := h t ht
    have h2 : trimChars t = [] := by
      have := congrArg String.data this
      simpa [trim] using this
    exact (trimChars_eq_nil_iff t).1 h2
  · intro h t ht
    have h2 := (trimChars_eq_nil_iff t).2 (h t ht)
    simp only [trim]
    rw [h2]

theorem enumConstraint_in (q : Query) (field text : String)
    (habsent : q field = .undefined) (hin : q (field ++ "_in") = .string text) :
    enumConstraint q field
      = if inTokens text = [] then none else some (.isIn (inTokens text)) := by
  have hfilter : (((splitComma text).map trim).filter fun s => truthy (.string s))
      = inTokens text := by
    unfold inTokens
    congr 1
    funext s
    simp [truthy, string_eq_empty_iff]
  simp only [enumConstraint, habsent, hin, hfilter]
  simp only [truthy, isString, Bool.false_and, Bool.false_eq_true, if_false]
  by_cases hte : text = ""
  · subst hte
    have h0 : inTokens "" = [] := by decide
    simp [h0]
  · have hd : ¬ text.data = [] := fun h => hte ((string_eq_empty_iff text).1 h)
    simp only [hd, decide_not, decide_False, Bool.not_false, if_true]
    cases hT : inTokens text <;> simp

/-- C4: for a field of the string family or of the enum family whose exact
parameter is a non-blank string `s`, the filter holds the literal `s` under the
field, for every query with the same exact parameter, whatever its `_contains`
or `_in` parameter is. -/
theorem C4_exact_string_wins (rt : Runtime) (q : Query) (field s : String)
    (hfield : field ∈ stringFields ∨ field ∈ enumFields)
    (hval : q field = .string s) (hs : isBlank s = false) :
    (getLeadsFilter rt q).get field = some (.eq (.string s))
      ∧ ∀ q2 : Query, q2 field = q field →
          (getLeadsFilter rt q2).get field = some (.eq (.string s)) := by
  have hd : ¬ s.data = [] := by
    intro h
    have : s = "" := (string_eq_empty_iff s).1 h
    subst this
    exact absurd hs (by decide)
  have key : ∀ q2 : Query, q2 field = .string s →
      (getLeadsFilter rt q2).get field = some (.eq (.string s)) := by
    intro q2 h2
    rcases hfield with hf | hf
    · rw [getLeadsFilter_get_string rt q2 field hf]
      simp [stringConstraint, h2, truthy, isString, hd]
    · rw [getLeadsFilter_get_enum rt q2 field hf]
      simp [enumConstraint, h2, truthy, isString, hd]
  exact ⟨key q hval, fun q2 h2 => key q2 (h2.trans hval)⟩

/-- C4 at `company=Acme Corp&company_contains=acm`: the filter holds the literal
`Acme Corp` under `company`. -/
theorem C4_exact_string_wins_witness :
    ("company" ∈ stringFields ∨ "company" ∈ enumFields)
      ∧ Query.ofList [("company", .string "Acme Corp"), ("company_contains", .string "acm")]
          "company" = .string "Acme Corp"
      ∧ isBlank "Acme Corp" = false
      ∧ (getLeadsFilter (runtimeAt 0 fun _ => none)
          (Query.ofList [("company", .string "Acme Corp"),
            ("company_contains", .string "acm")])).get "company"
          = some (.eq (.string "Acme Corp")) :=
  ⟨by decide, by decide, by decide,
    (C4_exact_string_wins (runtimeAt 0 fun _ => none) _ "company" "Acme Corp" (by decide)
      (by decide) (by decide)).1⟩

/-- C5: for an enum field whose exact parameter is absent and whose `_in`
parameter is a string, let `T` be the value split on commas, each token trimmed,
empty tokens dropped.  If `T` is not empty the filter holds membership in
exactly `T` under the field; if `T` is empty the field is not in the filter;
`T` is empty exactly when the value holds commas and white space only; and no
token of `T` is empty or starts or ends with white space. -/
theorem C5_in_tokens (rt : Runtime) (q : Query) (field text : String)
    (hfield : field ∈ enumFields) (habsent : q field = .undefined)
    (hin : q (field ++ "_in") = .string text) :
    (inTokens text ≠ [] → (getLeadsFilter rt q).get field = some (.isIn (inTokens text)))
      ∧ (inTokens text = [] → (getLeadsFilter rt q).get field = none)
      ∧ (inTokens text = [] ↔ ∀ c ∈ text.data, c = ',' ∨ isStrWhiteSpaceChar c = true)
      ∧ ∀ t ∈ inTokens text, t ≠ ""
          ∧ (∀ c, t.data.head? = some c → isStrWhiteSpaceChar c = false)
          ∧ (∀ c, t.data.getLast? = some c → isStrWhiteSpaceChar c = false) := by
  rw [getLeadsFilter_get_enum rt q field hfield, enumConstraint_in q field text habsent hin]
  refine ⟨fun h => by simp [h], fun h => by simp [h], inTokens_eq_nil_iff text, ?_⟩
  intro t ht
  unfold inTokens at ht
  rw [List.mem_filter, List.mem_map] at ht
  obtain ⟨⟨u, -, rfl⟩, hne⟩ := ht
  refine ⟨by simpa using hne, ?_, ?_⟩
  · intro c hc; exact head?_trimChars u.data c hc
  · intro c hc; exact getLast?_trimChars u.data c hc

/-- C5 at `status_in=won, lost`: the filter holds membership in `[won, lost]`
under `status`. -/
theorem C5_in_tokens_witness :
    "status" ∈ enumFields
      ∧ Query.ofList [("status_in", .string "won, lost")] "status" = .undefined
      ∧ Query.ofList [("status_in", .string "won, lost")] ("status" ++ "_in")
          = .string "won, lost"
      ∧ (getLeadsFilter (runtimeAt 0 fun _ => none)
          (Query.ofList [("status_in", .string "won, lost")])).get "status"
          = some (.isIn ["won", "lost"]) :=
  ⟨by decide, by decide, by decide,
    (C5_in_tokens (runtimeAt 0 fun _ => none) _ "status" "won, lost" (by decide) (by decide)
      (by decide)).1 (by decide)⟩

/-! ## Date fields -/

theorem setHours_start (rt : Runtime) (d : Int) :
    setHours rt d 0 0 0 0 = timeClip (localDayStart rt (localDay rt d)) := by
  simp [setHours, localDayStart, localDay]

theorem setHours_end (rt : Runtime) (d : Int) :
    setHours rt d 23 59 59 999 = timeClip (localDayEnd rt (localDay rt d)) := by
  simp only [setHours, localDayEnd, localDay]
  congr 2

/-- The filter of a date field whose `_on` parameter is given and parses. -/
theorem dateConstraint_on (rt : Runtime) (q : Query) (field : String) (d : Int)
    (hpresent : truthy (q (field ++ "_on")) = true)
    (hparse : parseDate rt (q (field ++ "_on")) = some d) :
    dateConstraint rt q field
      = some (.dateRange { gte := some (setHours rt d 0 0 0 0),
                           lte := some (setHours rt d 23 59 59 999) }) := by
  simp [dateConstraint, hpresent, hparse]

/-- The days the `_on` filter selects when the parameter is parsed as midnight
UTC of day number `day`, in a process whose offset from UTC is the constant
`tza`: the local day `day + tza / msPerDay`, which is `day` for an offset from 0
up to 24 hours and the day before for a negative offset down to 24 hours. -/
theorem dateConstraint_on_midnight_utc (rt : Runtime) (q : Query) (field : String)
    (day tza : Int) (hconst : ∀ t b, rt.localTZA t b = tza)
    (hpresent : truthy (q (field ++ "_on")) = true)
    (hparse : parseDate rt (q (field ++ "_on")) = some (day * msPerDay)) :
    dateConstraint rt q field
      = some (.dateRange
          { gte := some (timeClip (localDayStart rt (day + tza / msPerDay))),
            lte := some (timeClip (localDayEnd rt (day + tza / msPerDay))) }) := by
  rw [dateConstraint_on rt q field _ hpresent hparse, setHours_start, setHours_end]
  have h : localDay rt (day * msPerDay) = day + tza / msPerDay := by
    unfold localDay localTime
    rw [hconst]
    unfold msPerDay; omega
  rw [h]

/-- East of Greenwich, for an offset from 0 up to 24 hours, the local day of
midnight UTC of day `day` is `day` itself. -/
theorem localDay_east (tza day : Int) (h0 : 0 ≤ tza) (h1 : tza < msPerDay) :
    day + tza / msPerDay = day := by
  unfold msPerDay at *; omega

/-- West of Greenwich, for a negative offset down to 24 hours, the local day of
midnight UTC of day `day` is the day before. -/
theorem localDay_west (tza day : Int) (h0 : -msPerDay ≤ tza) (h1 : tza < 0) :
    day + tza / msPerDay = day - 1 := by
  unfold msPerDay at *; omega

/-- C6, evaluated where it fails: `created_at_on=2024-05-01` in a process whose
local time is five hours behind UTC.  The parameter is parsed as midnight UTC
of 1 May, which is 19:00 of 30 April local time, so the filter selects the
local day 30 April, and its upper bound lies before the start of 1 May. -/
theorem C6_on_day_west_of_utc :
    parseDateOnly "2024-05-01" = some (daysFromCivil 2024 5 1 * msPerDay)
      ∧ (getLeadsFilter (runtimeAt (-18000000) parseDateOnly)
          (Query.ofList [("created_at_on", .string "2024-05-01")])).get "created_at"
          = some (.dateRange
              { gte := some (.time (localDayStart (runtimeAt (-18000000) parseDateOnly)
                  (daysFromCivil 2024 4 30))),
                lte := some (.time (localDayEnd (runtimeAt (-18000000) parseDateOnly)
                  (daysFromCivil 2024 4 30))) })
      ∧ localDayEnd (runtimeAt (-18000000) parseDateOnly) (daysFromCivil 2024 4 30)
          < localDayStart (runtimeAt (-18000000) parseDateOnly) (daysFromCivil 2024 5 1) := by
  refine ⟨by decide, by decide, by decide⟩

/-- C7: for a date field whose `_on` parameter is given and parses to the
instant `d`, the filter holds under the field a range with exactly the two keys
`$gte` and `$lte`: the start (00:00:00.000 local time) and the last millisecond
(23:59:59.999 local time) of the local calendar day that holds `d`, each
converted to UTC with the offset the runtime has in force for it, so that the
local clock reads that time at the bound whenever the runtime gives the bound
the offset it gave the local time.  The range is the same for every query with that `_on` parameter, whatever `_before`,
`_after` and `_between` are.  The parameter parses when the handler finds it
given (truthy) and `parseDate` accepts it.  In a process whose offset from UTC
is constant the day is 24 hours long: the lower bound is the last local
midnight not after `d`, the upper bound is 86399999 ms later, and both are
valid dates when `d` is a day or more inside the range of time values. -/
theorem C7_on_takes_precedence (rt : Runtime) (q : Query) (field : String) (d : Int)
    (hfield : field ∈ dateFields)
    (hpresent : truthy (q (field ++ "_on")) = true)
    (hparse : parseDate rt (q (field ++ "_on")) = some d) :
    (getLeadsFilter rt q).get field
        = some (.dateRange { gt := none, lt := none, gte := some (setHours rt d 0 0 0 0),
                             lte := some (setHours rt d 23 59 59 999) })
      ∧ (∀ q2 : Query, q2 (field ++ "_on") = q (field ++ "_on") →
          (getLeadsFilter rt q2).get field = (getLeadsFilter rt q).get field)
      ∧ setHours rt d 0 0 0 0 = timeClip (localDayStart rt (localDay rt d))
      ∧ setHours rt d 23 59 59 999 = timeClip (localDayEnd rt (localDay rt d))
      ∧ (localDay rt d * msPerDay ≤ localTime rt d
          ∧ localTime rt d < (localDay rt d + 1) * msPerDay)
      ∧ (localDayStart rt (localDay rt d) + rt.localTZA (localDay rt d * msPerDay) false
            = localDay rt d * msPerDay
          ∧ localDayEnd rt (localDay rt d)
              + rt.localTZA (localDay rt d * msPerDay + 86399999) false
            = localDay rt d * msPerDay + 86399999)
      ∧ ((rt.localTZA (localDayStart rt (localDay rt d)) true
              = rt.localTZA (localDay rt d * msPerDay) false →
            localTime rt (localDayStart rt (localDay rt d)) = localDay rt d * msPerDay)
          ∧ (rt.localTZA (localDayEnd rt (localDay rt d)) true
              = rt.localTZA (localDay rt d * msPerDay + 86399999) false →
            localTime rt (localDayEnd rt (localDay rt d))
              = localDay rt d * msPerDay + 86399999))
      ∧ (∀ tza : Int, (∀ t b, rt.localTZA t b = tza) →
          (∀ s, setHours rt d 0 0 0 0 = .time s →
              s ≤ d ∧ d < s + msPerDay ∧ (s + tza) % msPerDay = 0)
            ∧ (∀ e, setHours rt d 23 59 59 999 = .time e →
              d ≤ e ∧ e < d + msPerDay ∧ (e + tza) % msPerDay = 86399999)
            ∧ (|d| + msPerDay ≤ 8640000000000000 →
              (∃ s, setHours rt d 0 0 0 0 = .time s)
                ∧ ∃ e, setHours rt d 23 59 59 999 = .time e)) := by
  refine ⟨?_, ?_, setHours_start rt d, setHours_end rt d, ?_, ?_, ?_, ?_⟩
  · rw [getLeadsFilter_get_date rt q field hfield]
    exact dateConstraint_on rt q field d hpresent hparse
  · intro q2 h2
    rw [getLeadsFilter_get_date rt q field hfield, getLeadsFilter_get_date rt q2 field hfield,
      dateConstraint_on rt q field d hpresent hparse,
      dateConstraint_on rt q2 field d (by rw [h2]; exact hpresent) (by rw [h2]; exact hparse)]
  · unfold localDay msPerDay
    constructor <;> omega
  · unfold localDayStart localDayEnd utcOfLocal
    constructor <;> omega
  · constructor
    · intro h
      unfold localTime
      rw [h]
      unfold localDayStart utcOfLocal
      omega
    · intro h
      unfold localTime
      rw [h]
      unfold localDayEnd utcOfLocal
      omega
  · intro tza hconst
    refine ⟨?_, ?_, ?_⟩
    · intro s hs
      simp only [setHours, timeClip, msPerDay, localTime, utcOfLocal, hconst] at hs
      split at hs
      · injection hs with hs
        unfold msPerDay
        omega
      · exact JSDate.noConfusion hs
    · intro e he
      simp only [setHours, timeClip, msPerDay, localTime, utcOfLocal, hconst] at he
      split at he
      · injection he with he
        unfold msPerDay
        omega
      · exact JSDate.noConfusion he
    · intro hd
      unfold msPerDay at hd
      have hbound : |d| ≤ 8640000000000000 - 86400000 := by omega
      have hd2 := abs_le.1 hbound
      constructor
      · refine ⟨(d + tza) / 86400000 * 86400000 - tza, ?_⟩
        have hc : |(d + tza) / 86400000 * 86400000 - tza| ≤ 8640000000000000 := by
          rw [abs_le]; omega
        simp [setHours, timeClip, msPerDay, localTime, utcOfLocal, hconst, hc]
      · refine ⟨(d + tza) / 86400000 * 86400000 + 86399999 - tza, ?_⟩
        have hc : |(d + tza) / 86400000 * 86400000 + 86399999 - tza|
            ≤ 8640000000000000 := by
          rw [abs_le]; omega
        have e : (d + tza) / 86400000 * 86400000
            + (23 * 3600000 + 59 * 60000 + 59 * 1000 + 999) - tza
            = (d + tza) / 86400000 * 86400000 + 86399999 - tza := by ring
        simp only [setHours, timeClip, msPerDay, localTime, utcOfLocal, hconst, e, hc, if_true]

/-- C7 at `created_at_on=2024-05-01&created_at_before=2020-01-01` in a process on
UTC: the filter holds the closed interval of 1 May 2024. -/
theorem C7_on_takes_precedence_witness :
    "created_at" ∈ dateFields
      ∧ truthy (Query.ofList [("created_at_on", .string "2024-05-01"),
          ("created_at_before", .string "2020-01-01")] ("created_at" ++ "_on")) = true
      ∧ parseDate (runtimeAt 0 parseDateOnly)
          (Query.ofList [("created_at_on", .string "2024-05-01"),
            ("created_at_before", .string "2020-01-01")] ("created_at" ++ "_on"))
          = some 1714521600000
      ∧ (getLeadsFilter (runtimeAt 0 parseDateOnly)
          (Query.ofList [("created_at_on", .string "2024-05-01"),
            ("created_at_before", .string "2020-01-01")])).get "created_at"
          = some (.dateRange { gt := none, lt := none, gte := some (.time 1714521600000),
                               lte := some (.time 1714607999999) }) :=
  ⟨by decide, by decide, by decide,
    (C7_on_takes_precedence (runtimeAt 0 parseDateOnly) _ "created_at" 1714521600000
      (by decide) (by decide) (by decide)).1⟩

/-- The day of an `_on` parameter on which the clocks go forward:
`created_at_on=2024-03-11` in a process that is five hours behind UTC up to
2024-03-10T07:00:00Z and four hours behind from then on.  The parameter is
midnight UTC of 11 March, 20:00 of 10 March local time; the filter holds the
local day 10 March, from 05:00:00.000Z of 10 March to 03:59:59.999Z of 11 March,
which is 23 hours long. -/
theorem dateConstraint_on_clock_change :
    (getLeadsFilter (runtimeWithChange 1710054000000 (-18000000) (-14400000) parseDateOnly)
        (Query.ofList [("created_at_on", .string "2024-03-11")])).get "created_at"
        = some (.dateRange { gte := some (.time 1710046800000),
                             lte := some (.time 1710129599999) })
      ∧ (1710129599999 : Int) + 1 - 1710046800000 = 23 * 3600000 := by
  refine ⟨by decide, by decide⟩

theorem dateRange_keyCount_eq_zero (r : DateRange) :
    ¬ r.keyCount > 0 ↔ r.gt = none ∧ r.lt = none ∧ r.gte = none ∧ r.lte = none := by
  obtain ⟨gt, lt, gte, lte⟩ := r
  cases gt <;> cases lt <;> cases gte <;> cases lte <;> simp [DateRange.keyCount]

/-- The range object the date loop builds when `_on` is not given or does not
parse. -/
theorem dateConstraint_range (rt : Runtime) (q : Query) (field : String)
    (hon : truthy (q (field ++ "_on")) = false ∨ parseDate rt (q (field ++ "_on")) = none) :
    ∃ r : DateRange,
      dateConstraint rt q field = (if r.keyCount > 0 then some (.dateRange r) else none)
        ∧ r.lt = ((if truthy (q (field ++ "_before")) then parseDate rt (q (field ++ "_before"))
            else none).map JSDate.time)
        ∧ r.gt = ((if truthy (q (field ++ "_after")) then parseDate rt (q (field ++ "_after"))
            else none).map JSDate.time)
        ∧ r.gte = (match q (field ++ "_between") with
            | .string text =>
              if text ≠ "" then (parseDate rt (token text 0)).map JSDate.time else none
            | _ => none)
        ∧ r.lte = (match q (field ++ "_between") with
            | .string text =>
              if text ≠ "" then (parseDate rt (token text 1)).map JSDate.time else none
            | _ => none) := by
  have hon2 : (if truthy (q (field ++ "_on")) then parseDate rt (q (field ++ "_on")) else none)
      = none := by
    rcases hon with h | h
    · simp [h]
    · simp [h]
  refine ⟨{ lt := (if truthy (q (field ++ "_before")) then parseDate rt (q (field ++ "_before"))
              else none).map JSDate.time,
            gt := (if truthy (q (field ++ "_after")) then parseDate rt (q (field ++ "_after"))
              else none).map JSDate.time,
            gte := match q (field ++ "_between") with
              | .string text =>
                if text ≠ "" then (parseDate rt (token text 0)).map JSDate.time else none
              | _ => none,
            lte := match q (field ++ "_between") with
              | .string text =>
                if text ≠ "" then (parseDate rt (token text 1)).map JSDate.time else none
              | _ => none }, ?_, rfl, rfl, rfl, rfl⟩
  unfold dateConstraint
  simp only [hon2]
  cases hb : (if truthy (q (field ++ "_before")) then parseDate rt (q (field ++ "_before"))
      else none) <;>
  cases ha : (if truthy (q (field ++ "_after")) then parseDate rt (q (field ++ "_after"))
      else none) <;>
  cases hbw : q (field ++ "_between") <;>
  simp only [truthy, token, Option.map] <;>
  first
  | rfl
  | (rename_i text
     by_cases hte : text = ""
     · subst hte; simp
     · have hd : ¬ text.data = [] := fun h => hte ((string_eq_empty_iff text).1 h)
       simp only [hd, hte, decide_not, decide_False, Bool.not_false, if_true, ne_eq,
         not_false_eq_true]
       cases parseDate rt (element ((splitComma text).map trim) 0) <;>
       cases parseDate rt (element ((splitComma text).map trim) 1) <;> rfl)

/-- C8: for a date field whose `_on` parameter is not given or does not parse, the
filter holds one range object `r` under the field, or nothing when `r` has no
key.  A parameter parses when the handler finds it given (truthy) and
`parseDate` accepts it.  `r` has an exclusive upper bound iff `_before` parses,
an exclusive lower bound iff `_after` parses, an inclusive lower bound iff
`_between` is given as a string and its first trimmed token parses, an
inclusive upper bound iff its second token parses; each bound is the parsed
instant; and the field is absent from the filter iff none of the four parses. -/
theorem C8_date_range (rt : Runtime) (q : Query) (field : String)
    (hfield : field ∈ dateFields)
    (hon : truthy (q (field ++ "_on")) = false ∨ parseDate rt (q (field ++ "_on")) = none) :
    ∃ r : DateRange,
      (getLeadsFilter rt q).get field = (if r.keyCount > 0 then some (.dateRange r) else none)
        ∧ (∀ x, r.lt = some x ↔
            ∃ d, x = .time d ∧ truthy (q (field ++ "_before")) = true
              ∧ parseDate rt (q (field ++ "_before")) = some d)
        ∧ (∀ x, r.gt = some x ↔
            ∃ d, x = .time d ∧ truthy (q (field ++ "_after")) = true
              ∧ parseDate rt (q (field ++ "_after")) = some d)
        ∧ (∀ x, r.gte = some x ↔
            ∃ d text, x = .time d ∧ q (field ++ "_between") = .string text ∧ text ≠ ""
              ∧ parseDate rt (token text 0) = some d)
        ∧ (∀ x, r.lte = some x ↔
            ∃ d text, x = .time d ∧ q (field ++ "_between") = .string text ∧ text ≠ ""
              ∧ parseDate rt (token text 1) = some d)
        ∧ ((getLeadsFilter rt q).get field = none ↔
            r.lt = none ∧ r.gt = none ∧ r.gte = none ∧ r.lte = none) := by
  rw [getLeadsFilter_get_date rt q field hfield]
  obtain ⟨r, hget, hlt, hgt, hgte, hlte⟩ := dateConstraint_range rt q field hon
  refine ⟨r, hget, ?_, ?_, ?_, ?_, ?_⟩
  · intro x
    rw [hlt]
    by_cases hp : truthy (q (field ++ "_before")) = true
    · cases hd : parseDate rt (q (field ++ "_before")) <;> simp [hp, eq_comm]
    · simp [hp]
  · intro x
    rw [hgt]
    by_cases hp : truthy (q (field ++ "_after")) = true
    · cases hd : parseDate rt (q (field ++ "_after")) <;> simp [hp, eq_comm]
    · simp [hp]
  · intro x
    rw [hgte]
    cases hbw : q (field ++ "_between") <;> simp
    rename_i text
    by_cases hte : text = ""
    · simp [hte]
    · cases hd : parseDate rt (token text 0) <;> simp [hte, eq_comm]
  · intro x
    rw [hlte]
    cases hbw : q (field ++ "_between") <;> simp
    rename_i text
    by_cases hte : text = ""
    · simp [hte]
    · cases hd : parseDate rt (token text 1) <;> simp [hte, eq_comm]
  · rw [hget]
    by_cases hk : r.keyCount > 0
    · have := (dateRange_keyCount_eq_zero r).not.1 (not_not.2 hk)
      simp only [hk, if_true]
      constructor
      · intro h; exact Option.noConfusion h
      · rintro ⟨h1, h2, h3, h4⟩; exact absurd ⟨h2, h1, h3, h4⟩ this
    · obtain ⟨h1, h2, h3, h4⟩ := (dateRange_keyCount_eq_zero r).1 hk
      simp [hk, h1, h2, h3, h4]

/-- C8 at `created_at_after=2024-05-01&created_at_before=2024-06-01` in a process
on UTC: the filter holds the open interval between the two instants. -/
theorem C8_date_range_witness :
    "created_at" ∈ dateFields
      ∧ (truthy (Query.ofList [("created_at_after", .string "2024-05-01"),
            ("created_at_before", .string "2024-06-01")] ("created_at" ++ "_on")) = false
          ∨ parseDate (runtimeAt 0 parseDateOnly)
              (Query.ofList [("created_at_after", .string "2024-05-01"),
                ("created_at_before", .string "2024-06-01")] ("created_at" ++ "_on")) = none)
      ∧ (getLeadsFilter (runtimeAt 0 parseDateOnly)
          (Query.ofList [("created_at_after", .string "2024-05-01"),
            ("created_at_before", .string "2024-06-01")])).get "created_at"
          = some (.dateRange { gt := some (.time 1714521600000),
                               lt := some (.time 1717200000000), gte := none, lte := none }) := by
  have hon : truthy (Query.ofList [("created_at_after", .string "2024-05-01"),
        ("created_at_before", .string "2024-06-01")] ("created_at" ++ "_on")) = false
      ∨ parseDate (runtimeAt 0 parseDateOnly)
          (Query.ofList [("created_at_after", .string "2024-05-01"),
            ("created_at_before", .string "2024-06-01")] ("created_at" ++ "_on")) = none :=
    Or.inl (by decide)
  refine ⟨by decide, hon, ?_⟩
  obtain ⟨r, hget, hlt, hgt, hgte, hlte, -⟩ :=
    C8_date_range (runtimeAt 0 parseDateOnly)
      (Query.ofList [("created_at_after", .string "2024-05-01"),
        ("created_at_before", .string "2024-06-01")]) "created_at" (by decide) hon
  have hb : Query.ofList [("created_at_after", .string "2024-05-01"),
      ("created_at_before", .string "2024-06-01")] ("created_at" ++ "_between")
      = .undefined := by decide
  have e1 : r.lt = some (.time 1717200000000) :=
    (hlt _).2 ⟨1717200000000, rfl, by decide, by decide⟩
  have e2 : r.gt = some (.time 1714521600000) :=
    (hgt _).2 ⟨1714521600000, rfl, by decide, by decide⟩
  have e3 : r.gte = none := by
    cases h : r.gte with
    | none => rfl
    | some x =>
      obtain ⟨d, text, -, ht, -⟩ := (hgte x).1 h
      rw [hb] at ht
      exact JSValue.noConfusion ht
  have e4 : r.lte = none := by
    cases h : r.lte with
    | none => rfl
    | some x =>
      obtain ⟨d, text, -, ht, -⟩ := (hlte x).1 h
      rw [hb] at ht
      exact JSValue.noConfusion ht
  obtain ⟨gt, lt, gte, lte⟩ := r
  simp only at e1 e2 e3 e4
  subst e1 e2 e3 e4
  rw [hget]
  decide

/-! ## The boolean field -/

theorem equalsIgnoreCaseChars_iff (s t : List Char) :
    equalsIgnoreCaseChars s t = true ↔ s.map Char.toLower = t.map Char.toLower := by
  induction s generalizing t with
  | nil => cases t <;> simp [equalsIgnoreCaseChars]
  | cons a as ih =>
    cases t with
    | nil => simp [equalsIgnoreCaseChars]
    | cons b bs => simp [equalsIgnoreCaseChars, sameCharIgnoreCase, ih]

theorem toLowerCase_eq_iff (s target : String)
    (hlow : target.data.map Char.toLower = target.data) :
    toLowerCase s = target ↔ equalsIgnoreCase s target = true := by
  unfold equalsIgnoreCase
  rw [equalsIgnoreCaseChars_iff, hlow]
  unfold toLowerCase
  constructor
  · intro h; rw [← h]
  · intro h; exact String.ext h

theorem parseBoolean_string (s : String) :
    parseBoolean (.string s)
      = if equalsIgnoreCase s "true" = true then some true
        else if equalsIgnoreCase s "false" = true then some false
        else none := by
  unfold parseBoolean
  simp only [toLowerCase_eq_iff s "true" (by decide), toLowerCase_eq_iff s "false" (by decide)]

/-- C9: the filter constrains `is_qualified` to `true` iff the parameter is the
boolean `true` or a string equal to `true` ignoring case, to `false` iff it is
the boolean `false` or a string equal to `false` ignoring case, and holds no key
`is_qualified` for every other value of the parameter. -/
theorem C9_is_qualified (rt : Runtime) (q : Query) :
    ((getLeadsFilter rt q).get "is_qualified" = some (.eq (.boolean true)) ↔
        q "is_qualified" = .boolean true
          ∨ ∃ s, q "is_qualified" = .string s ∧ equalsIgnoreCase s "true" = true)
      ∧ ((getLeadsFilter rt q).get "is_qualified" = some (.eq (.boolean false)) ↔
        q "is_qualified" = .boolean false
          ∨ ∃ s, q "is_qualified" = .string s ∧ equalsIgnoreCase s "false" = true)
      ∧ ((getLeadsFilter rt q).get "is_qualified" = none ↔
        ¬ (q "is_qualified" = .boolean true
            ∨ ∃ s, q "is_qualified" = .string s ∧ equalsIgnoreCase s "true" = true)
          ∧ ¬ (q "is_qualified" = .boolean false
            ∨ ∃ s, q "is_qualified" = .string s ∧ equalsIgnoreCase s "false" = true)) := by
  have hne : ∀ s, ¬ (equalsIgnoreCase s "true" = true ∧ equalsIgnoreCase s "false" = true) := by
    intro s ⟨h1, h2⟩
    rw [← toLowerCase_eq_iff s "true" (by decide)] at h1
    rw [← toLowerCase_eq_iff s "false" (by decide)] at h2
    rw [h1] at h2
    exact absurd h2 (by decide)
  rw [getLeadsFilter_get_boolean]
  unfold booleanConstraint
  cases hv : q "is_qualified" with
  | undefined => simp
  | null => simp [parseBoolean]
  | number n => simp [parseBoolean]
  | array items => simp [parseBoolean]
  | object ownKeys => simp [parseBoolean]
  | boolean b => cases b <;> simp [parseBoolean]
  | string s =>
    have h := hne s
    rw [parseBoolean_string]
    by_cases h1 : equalsIgnoreCase s "true" = true
    · have h2 : ¬ equalsIgnoreCase s "false" = true := fun h2 => h ⟨h1, h2⟩
      simp [h1, h2]
    · by_cases h2 : equalsIgnoreCase s "false" = true
      · simp [h1, h2]
      · simp [h1, h2]

/-! ## The `_contains` pattern -/

theorem regexMatchesAt_literal (s ps : List Char)
    (h : ∀ p ∈ ps, isRegexMeta p = false) :
    regexMatchesAt true s ps = startsWithIgnoreCase s ps := by
  induction ps generalizing s with
  | nil => cases s <;> rfl
  | cons p ps ih =>
    cases s with
    | nil => rfl
    | cons c s =>
      have hp : isRegexMeta p = false := h p (List.mem_cons_self p ps)
      have hdot : ¬ p = '.' := by
        intro hd
        rw [hd] at hp
        exact absurd hp (by decide)
      simp only [regexMatchesAt, startsWithIgnoreCase, regexItemMatches, hdot, if_false, if_true]
      rw [ih s fun x hx => h x (List.mem_cons_of_mem p hx)]

theorem regexSearch_literal (s ps : List Char)
    (h : ∀ p ∈ ps, isRegexMeta p = false) :
    regexSearch true s ps = containsIgnoreCaseChars s ps := by
  induction s with
  | nil => simp only [regexSearch, containsIgnoreCaseChars, regexMatchesAt_literal [] ps h]
  | cons c s ih =>
    simp only [regexSearch, containsIgnoreCaseChars, regexMatchesAt_literal (c :: s) ps h, ih]

/-- The `_contains` pattern with the option `i` is the substring test ignoring
case when the value holds no regular-expression metacharacter. -/
theorem regexAccepts_literal (v s : String)
    (h : ∀ p ∈ v.data, isRegexMeta p = false) :
    regexAccepts v "i" s = some (containsIgnoreCase s v) := by
  have hall : (v.data.all fun c => c = '.' || !isRegexMeta c) = true := by
    rw [List.all_eq_true]
    intro c hc
    simp [h c hc]
  have hi : "i".data.contains 'i' = true := by decide
  unfold regexAccepts containsIgnoreCase
  rw [if_pos hall, hi, regexSearch_literal s.data v.data h]

/-- C10, evaluated where it fails: `company_contains=.`.  The handler stores the
value itself as the pattern, with the option `i`.  In a pattern the dot stands
for any character, so the pattern accepts `abc`, which does not contain a dot;
likewise the pattern `a.c` accepts `abc`. -/
theorem C10_pattern_is_not_escaped :
    (getLeadsFilter (runtimeAt 0 fun _ => none)
        (Query.ofList [("company_contains", .string ".")])).get "company"
        = some (.regex "." "i")
      ∧ regexAccepts "." "i" "abc" = some true
      ∧ containsIgnoreCase "abc" "." = false
      ∧ regexAccepts "a.c" "i" "abc" = some true
      ∧ containsIgnoreCase "abc" "a.c" = false := by
  refine ⟨by decide, by decide, by decide, by decide, by decide⟩

/-! ## Pagination -/

theorem overflowBound_large : (2 : ℚ) ^ 53 < overflowBound := by
  norm_num [overflowBound]

theorem ofExact_of_lt (x : ℚ) (h : |x| < overflowBound) : ofExact x = .finite x := by
  simp [ofExact, h]

theorem ofExact_of_not_lt (x : ℚ) (h : ¬ |x| < overflowBound) :
    ofExact x = .infinity (decide (x < 0)) := by
  simp [ofExact, h]

/-- The three statements that resolve the limit, applied to the number read from
the integer `z`. -/
theorem limit_steps_of_int (z : Int) :
    (let limit := (ofExact (z : ℚ)).or (.finite 20)
     let limit := if (JSNumber.finite 100).lt limit then .finite 100 else limit
     if limit.lt (.finite 1) then JSNumber.finite 20 else limit)
      = if z < 1 then .finite 20 else if 100 < z then .finite 100 else .finite (z : ℚ) := by
  have hB := overflowBound_large
  by_cases hfin : |(z : ℚ)| < overflowBound
  · rw [ofExact_of_lt _ hfin]
    by_cases h0 : z = 0
    · subst h0
      norm_num [JSNumber.or, truthy, JSNumber.lt]
    · have h0q : ¬ (z : ℚ) = 0 := by exact_mod_cast h0
      by_cases h1 : z < 1
      · have h1q : (z : ℚ) < 1 := by exact_mod_cast h1
        have h2q : ¬ (100 : ℚ) < (z : ℚ) := by linarith
        simp [JSNumber.or, truthy, JSNumber.lt, h0q, h1, h1q, h2q]
      · have h1q : ¬ (z : ℚ) < 1 := by
          intro h; exact h1 (by exact_mod_cast h)
        by_cases h2 : 100 < z
        · have h2q : (100 : ℚ) < (z : ℚ) := by exact_mod_cast h2
          norm_num [JSNumber.or, truthy, JSNumber.lt, h0q, h1, h2, h2q]
        · have h2q : ¬ (100 : ℚ) < (z : ℚ) := by
            intro h; exact h2 (by exact_mod_cast h)
          simp [JSNumber.or, truthy, JSNumber.lt, h0q, h1, h1q, h2, h2q]
  · rw [ofExact_of_not_lt _ hfin]
    have hbig : overflowBound ≤ |(z : ℚ)| := not_lt.1 hfin
    by_cases hneg : (z : ℚ) < 0
    · have h1 : z < 1 := by
        have : z < 0 := by exact_mod_cast hneg
        omega
      simp [JSNumber.or, truthy, JSNumber.lt, hneg, h1]
    · have hpos : (0 : ℚ) ≤ (z : ℚ) := not_lt.1 hneg
      rw [abs_of_nonneg hpos] at hbig
      have h100 : (100 : ℚ) < (z : ℚ) := by
        have : (100 : ℚ) < (2 : ℚ) ^ 53 := by norm_num
        linarith
      have h100z : 100 < z := by exact_mod_cast h100
      have h1 : ¬ z < 1 := by omega
      simp [JSNumber.or, truthy, JSNumber.lt, hneg, h1, h100z]

theorem resolveLimit_eq (numberToString : JSNumber → String) (q : Query) :
    resolveLimit numberToString q
      = match parseIntDigits (toStringValue numberToString (q "limit")) with
        | some z => if z < 1 then .finite 20 else if 100 < z then .finite 100 else .finite (z : ℚ)
        | none => .finite 20 := by
  unfold resolveLimit parseInt
  cases h : parseIntDigits (toStringValue numberToString (q "limit")) with
  | none => norm_num [JSNumber.or, truthy, JSNumber.lt]
  | some z => exact limit_steps_of_int z

/-- C11: the resolved limit is 20 when the parameter is absent, when its text
does not start with an integer, and when the integer is below 1; it is 100 when
the integer is above 100; it is the integer itself otherwise.  So it is always an
integer from 1 to 100. -/
theorem C11_limit_resolved (numberToString : JSNumber → String) (q : Query) :
    (q "limit" = .undefined → resolveLimit numberToString q = .finite 20)
      ∧ (parseIntDigits (toStringValue numberToString (q "limit")) = none →
          resolveLimit numberToString q = .finite 20)
      ∧ (∀ z : Int, parseIntDigits (toStringValue numberToString (q "limit")) = some z →
          z < 1 → resolveLimit numberToString q = .finite 20)
      ∧ (∀ z : Int, parseIntDigits (toStringValue numberToString (q "limit")) = some z →
          100 < z → resolveLimit numberToString q = .finite 100)
      ∧ (∀ z : Int, parseIntDigits (toStringValue numberToString (q "limit")) = some z →
          1 ≤ z → z ≤ 100 → resolveLimit numberToString q = .finite (z : ℚ))
      ∧ ∃ l : Int, resolveLimit numberToString q = .finite (l : ℚ) ∧ 1 ≤ l ∧ l ≤ 100 := by
  rw [resolveLimit_eq]
  refine ⟨?_, ?_, ?_, ?_, ?_, ?_⟩
  · intro h
    have : parseIntDigits (toStringValue numberToString (q "limit")) = none := by
      rw [h]
      show parseIntDigits "undefined" = none
      decide
    rw [this]
  · intro h; rw [h]
  · intro z h hz; rw [h]; simp [hz]
  · intro z h hz
    have : ¬ z < 1 := by omega
    rw [h]; simp [hz, this]
  · intro z h h1 h2
    have e1 : ¬ z < 1 := by omega
    have e2 : ¬ 100 < z := by omega
    rw [h]; simp [e1, e2]
  · cases h : parseIntDigits (toStringValue numberToString (q "limit")) with
    | none => exact ⟨20, by norm_num, by decide, by decide⟩
    | some z =>
      by_cases h1 : z < 1
      · exact ⟨20, by simp [h1], by decide, by decide⟩
      · by_cases h2 : 100 < z
        · exact ⟨100, by simp [h1, h2], by decide, by decide⟩
        · exact ⟨z, by simp [h1, h2], by omega, by omega⟩

/-- C11 at `limit=500`, `limit=0` and `limit=-5`: the resolved limits are 100, 20
and 20. -/
theorem C11_limit_resolved_witness :
    resolveLimit (fun _ => "") (Query.ofList [("limit", .string "500")]) = .finite 100
      ∧ resolveLimit (fun _ => "") (Query.ofList [("limit", .string "0")]) = .finite 20
      ∧ resolveLimit (fun _ => "") (Query.ofList [("limit", .string "-5")]) = .finite 20
      ∧ resolveLimit (fun _ => "") (Query.ofList [("limit", .string "abc")]) = .finite 20
      ∧ resolveLimit (fun _ => "") (Query.ofList [("limit", .string "42")]) = .finite 42 := by
  refine ⟨?_, ?_, ?_, ?_, ?_⟩
  · exact (C11_limit_resolved (fun _ => "") (Query.ofList [("limit", .string "500")])).2.2.2.1
      500 (by decide) (by decide)
  · exact (C11_limit_resolved (fun _ => "") (Query.ofList [("limit", .string "0")])).2.2.1
      0 (by decide) (by decide)
  · exact (C11_limit_resolved (fun _ => "") (Query.ofList [("limit", .string "-5")])).2.2.1
      (-5) (by decide) (by decide)
  · exact (C11_limit_resolved (fun _ => "") (Query.ofList [("limit", .string "abc")])).2.1
      (by decide)
  · have h := (C11_limit_resolved (fun _ => "")
      (Query.ofList [("limit", .string "42")])).2.2.2.2.1 42 (by decide) (by decide) (by decide)
    simpa using h

theorem resolveLimit_range (numberToString : JSNumber → String) (q : Query) :
    ∃ l : Int, resolveLimit numberToString q = .finite (l : ℚ) ∧ 1 ≤ l ∧ l ≤ 100 := by
  rw [resolveLimit_eq]
  cases h : parseIntDigits (toStringValue numberToString (q "limit")) with
  | none => exact ⟨20, by norm_num, by decide, by decide⟩
  | some z =>
    by_cases h1 : z < 1
    · exact ⟨20, by simp [h1], by decide, by decide⟩
    · by_cases h2 : 100 < z
      · exact ⟨100, by simp [h1, h2], by decide, by decide⟩
      · exact ⟨z, by simp [h1, h2], by omega, by omega⟩

/-- The page, applied to the number read from the integer `z`. -/
theorem page_steps_of_int (z : Int) :
    mathMax ((ofExact (z : ℚ)).or (.finite 1)) (.finite 1)
      = if z < 1 then .finite 1 else ofExact (z : ℚ) := by
  by_cases hfin : |(z : ℚ)| < overflowBound
  · rw [ofExact_of_lt _ hfin]
    by_cases h0 : z = 0
    · subst h0
      norm_num [JSNumber.or, truthy, JSNumber.lt, mathMax]
    · have h0q : ¬ (z : ℚ) = 0 := by exact_mod_cast h0
      by_cases h1 : z < 1
      · have h1q : (z : ℚ) < 1 := by exact_mod_cast h1
        simp [JSNumber.or, truthy, JSNumber.lt, mathMax, h0q, h1, h1q]
      · have h1q : ¬ (z : ℚ) < 1 := by
          intro h; exact h1 (by exact_mod_cast h)
        simp [JSNumber.or, truthy, JSNumber.lt, mathMax, h0q, h1, h1q]
  · rw [ofExact_of_not_lt _ hfin]
    have hbig : overflowBound ≤ |(z : ℚ)| := not_lt.1 hfin
    have hB := overflowBound_large
    by_cases hneg : (z : ℚ) < 0
    · have h1 : z < 1 := by
        have : z < 0 := by exact_mod_cast hneg
        omega
      simp [JSNumber.or, truthy, JSNumber.lt, mathMax, hneg, h1]
    · have hpos : (0 : ℚ) ≤ (z : ℚ) := not_lt.1 hneg
      rw [abs_of_nonneg hpos] at hbig
      have h1q : (1 : ℚ) ≤ (z : ℚ) := by
        have : (1 : ℚ) < (2 : ℚ) ^ 53 := by norm_num
        linarith
      have h1 : ¬ z < 1 := by
        have : (1 : Int) ≤ z := by exact_mod_cast h1q
        omega
      simp [JSNumber.or, truthy, JSNumber.lt, mathMax, hneg, h1]

theorem resolvePage_eq (numberToString : JSNumber → String) (q : Query) :
    resolvePage numberToString q
      = match parseIntDigits (toStringValue numberToString (q "page")) with
        | some z => if z < 1 then .finite 1 else ofExact (z : ℚ)
        | none => .finite 1 := by
  unfold resolvePage parseInt
  cases h : parseIntDigits (toStringValue numberToString (q "page")) with
  | none => norm_num [JSNumber.or, truthy, JSNumber.lt, mathMax]
  | some z => exact page_steps_of_int z

theorem digitsFrom_zeros (n acc : Nat) :
    digitsFrom 10 acc (List.replicate n '0') = some (acc * 10 ^ n) := by
  induction n generalizing acc with
  | zero => simp [digitsFrom]
  | succ n ih =>
    have hd : digitValue 10 '0' = some 0 := by decide
    simp only [List.replicate_succ, digitsFrom, hd]
    rw [ih]
    congr 1
    ring

theorem parseIntDigits_oneAndZeros (n : Nat) :
    parseIntDigits (oneAndZeros n) = some ((10 : Int) ^ n) := by
  have hw : isStrWhiteSpaceChar '1' = false := by decide
  have hd1 : Char.isDigit '1' = true := by decide
  have hd0 : Char.isDigit '0' = true := by decide
  have hv : digitValue 10 '1' = some 1 := by decide
  have htake : List.takeWhile Char.isDigit (List.replicate n '0') = List.replicate n '0' := by
    rw [List.takeWhile_eq_self_iff]
    intro c hc
    rw [List.eq_of_mem_replicate hc]
    exact hd0
  simp only [parseIntDigits, oneAndZeros, trimStartChars, List.dropWhile_cons, hw,
    Bool.false_eq_true, if_false, takeSign, List.takeWhile_cons, hd1, if_true, htake, digits,
    digitsFrom, hv]
  rw [digitsFrom_zeros]
  simp

theorem ofExact_pow_ten_309 : ofExact (((10 : Int) ^ 309 : Int) : ℚ) = .infinity false := by
  have h : ¬ |(((10 : Int) ^ 309 : Int) : ℚ)| < overflowBound := by
    norm_num [overflowBound, abs_lt]
  rw [ofExact_of_not_lt _ h]
  norm_num

/-- C12 where it fails: the parameter `page` is the digit 1 followed by 309
zeros.  `parseInt` returns `Infinity` for it, the page is `Infinity`, which is
not the parsed integer, and the skip offset `(page - 1) * limit` is `Infinity`,
which is no multiple of the limit 20. -/
theorem C12_page_overflow_counterexample :
    parseIntDigits (toStringValue (fun _ => "")
        (Query.ofList [("page", .string (oneAndZeros 309))] "page")) = some ((10 : Int) ^ 309)
      ∧ resolvePage (fun _ => "") (Query.ofList [("page", .string (oneAndZeros 309))])
          = .infinity false
      ∧ resolveLimit (fun _ => "") (Query.ofList [("page", .string (oneAndZeros 309))])
          = .finite 20
      ∧ skipOffset
          (resolvePage (fun _ => "") (Query.ofList [("page", .string (oneAndZeros 309))]))
          (resolveLimit (fun _ => "") (Query.ofList [("page", .string (oneAndZeros 309))]))
          = .infinity false := by
  have hq : Query.ofList [("page", .string (oneAndZeros 309))] "page"
      = .string (oneAndZeros 309) := by
    simp [Query.ofList]
  have hparse : parseIntDigits (toStringValue (fun _ => "")
      (Query.ofList [("page", .string (oneAndZeros 309))] "page")) = some ((10 : Int) ^ 309) := by
    rw [hq]
    exact parseIntDigits_oneAndZeros 309
  have hpage : resolvePage (fun _ => "") (Query.ofList [("page", .string (oneAndZeros 309))])
      = .infinity false := by
    rw [resolvePage_eq, hparse]
    have h1 : ¬ ((10 : Int) ^ 309 < 1) := by norm_num
    simp only [h1, if_false]
    exact ofExact_pow_ten_309
  have hlimit : resolveLimit (fun _ => "") (Query.ofList [("page", .string (oneAndZeros 309))])
      = .finite 20 := by
    rw [resolveLimit_eq]
    have hl : Query.ofList [("page", .string (oneAndZeros 309))] "limit" = .undefined := by
      simp [Query.ofList]
    rw [hl]
    have : parseIntDigits (toStringValue (fun _ => "") .undefined) = none := by decide
    rw [this]
  refine ⟨hparse, hpage, hlimit, ?_⟩
  rw [hpage, hlimit]
  norm_num [skipOffset, JSNumber.sub, JSNumber.mul]

/-- C12, amended: the resolved page is 1 when the parameter is absent, when its
text does not start with an integer, and when the integer is below 1; otherwise
it is the number `parseInt` returns, which is the integer itself up to `2^53` and
`Infinity` beyond the range of finite numbers.  The page is never below 1.  When
the page is the integer `p`, the limit the integer `l`, and `(p - 1) * l` is at
most `2^53`, the skip offset is `(p - 1) * l`, a non-negative multiple of the
limit. -/
theorem C12_page_resolved (numberToString : JSNumber → String) (q : Query) :
    (q "page" = .undefined → resolvePage numberToString q = .finite 1)
      ∧ (parseIntDigits (toStringValue numberToString (q "page")) = none →
          resolvePage numberToString q = .finite 1)
      ∧ (∀ z : Int, parseIntDigits (toStringValue numberToString (q "page")) = some z →
          z < 1 → resolvePage numberToString q = .finite 1)
      ∧ (∀ z : Int, parseIntDigits (toStringValue numberToString (q "page")) = some z →
          1 ≤ z → resolvePage numberToString q = ofExact (z : ℚ))
      ∧ (∀ z : Int, parseIntDigits (toStringValue numberToString (q "page")) = some z →
          1 ≤ z → z ≤ 2 ^ 53 → resolvePage numberToString q = .finite (z : ℚ))
      ∧ (resolvePage numberToString q ≠ .nan
          ∧ (resolvePage numberToString q).lt (.finite 1) = false)
      ∧ (∀ p l : Int, resolvePage numberToString q = .finite (p : ℚ) →
          resolveLimit numberToString q = .finite (l : ℚ) → (p - 1) * l ≤ 2 ^ 53 →
          skipOffset (resolvePage numberToString q) (resolveLimit numberToString q)
              = .finite (((p - 1) * l : Int) : ℚ)
            ∧ 0 ≤ (p - 1) * l ∧ l ∣ (p - 1) * l) := by
  have hB := overflowBound_large
  have hsmall : ∀ z : Int, 0 ≤ z → z ≤ 2 ^ 53 → |(z : ℚ)| < overflowBound := by
    intro z h0 h1
    have h0q : (0 : ℚ) ≤ (z : ℚ) := by exact_mod_cast h0
    have h1q : (z : ℚ) ≤ (2 : ℚ) ^ 53 := by exact_mod_cast h1
    rw [abs_of_nonneg h0q]
    linarith
  have hpage := resolvePage_eq numberToString q
  refine ⟨?_, ?_, ?_, ?_, ?_, ?_, ?_⟩
  · intro h
    have : parseIntDigits (toStringValue numberToString (q "page")) = none := by
      rw [h]
      show parseIntDigits "undefined" = none
      decide
    rw [hpage, this]
  · intro h; rw [hpage, h]
  · intro z h hz; rw [hpage, h]; simp [hz]
  · intro z h hz
    have : ¬ z < 1 := by omega
    rw [hpage, h]; simp [this]
  · intro z h hz hz2
    have : ¬ z < 1 := by omega
    rw [hpage, h]
    simp only [this, if_false]
    exact ofExact_of_lt _ (hsmall z (by omega) hz2)
  · rw [hpage]
    cases h : parseIntDigits (toStringValue numberToString (q "page")) with
    | none => exact ⟨fun hn => JSNumber.noConfusion hn, by norm_num [JSNumber.lt]⟩
    | some z =>
      by_cases h1 : z < 1
      · simp only [h1, if_true]
        exact ⟨fun hn => JSNumber.noConfusion hn, by norm_num [JSNumber.lt]⟩
      · have h1q : ¬ (z : ℚ) < 1 := by
          intro hq; exact h1 (by exact_mod_cast hq)
        simp only [h1, if_false]
        by_cases hfin : |(z : ℚ)| < overflowBound
        · rw [ofExact_of_lt _ hfin]
          simp [JSNumber.lt, h1q]
        · rw [ofExact_of_not_lt _ hfin]
          have : ¬ (z : ℚ) < 0 := by
            intro hq; exact h1q (by linarith)
          simp [JSNumber.lt, this]
  · intro p l hp hl hbound
    obtain ⟨l2, hl2, hl1, hl100⟩ := resolveLimit_range numberToString q
    have hll : l = l2 := by
      rw [hl] at hl2
      have := JSNumber.finite.inj hl2
      exact_mod_cast this
    subst hll
    have hp1 : 1 ≤ p := by
      rw [hpage] at hp
      cases h : parseIntDigits (toStringValue numberToString (q "page")) with
      | none =>
        rw [h] at hp
        have := JSNumber.finite.inj hp
        have : (1 : Int) = p := by exact_mod_cast this
        omega
      | some z =>
        rw [h] at hp
        by_cases h1 : z < 1
        · simp only [h1, if_true] at hp
          have := JSNumber.finite.inj hp
          have : (1 : Int) = p := by exact_mod_cast this
          omega
        · simp only [h1, if_false] at hp
          by_cases hfin : |(z : ℚ)| < overflowBound
          · rw [ofExact_of_lt _ hfin] at hp
            have := JSNumber.finite.inj hp
            have : z = p := by exact_mod_cast this
            omega
          · rw [ofExact_of_not_lt _ hfin] at hp
            exact JSNumber.noConfusion hp
    have hnn : 0 ≤ (p - 1) * l := Int.mul_nonneg (by omega) (by omega)
    have hpm : p - 1 ≤ 2 ^ 53 := by
      have : p - 1 ≤ (p - 1) * l := by
        have := Int.mul_le_mul_of_nonneg_left hl1 (show (0 : Int) ≤ p - 1 by omega)
        simpa using this
      omega
    refine ⟨?_, hnn, Dvd.intro_left _ rfl⟩
    rw [hp, hl]
    have e1 : ofExact ((p : ℚ) - 1) = .finite ((p : ℚ) - 1) := by
      have := ofExact_of_lt _ (hsmall (p - 1) (by omega) hpm)
      simpa using this
    have e2 : ofExact (((p : ℚ) - 1) * (l : ℚ)) = .finite (((p : ℚ) - 1) * (l : ℚ)) := by
      have := ofExact_of_lt _ (hsmall ((p - 1) * l) hnn hbound)
      simpa using this
    simp only [skipOffset, JSNumber.sub, e1, JSNumber.mul, e2]
    push_cast
    rfl

/-- C12 at `page=0`: the page is 1 and the skip offset is 0. -/
theorem C12_page_resolved_witness :
    resolvePage (fun _ => "") (Query.ofList [("page", .string "0")]) = .finite 1
      ∧ skipOffset (resolvePage (fun _ => "") (Query.ofList [("page", .string "0")]))
          (resolveLimit (fun _ => "") (Query.ofList [("page", .string "0")])) = .finite 0 := by
  have h := C12_page_resolved (fun _ => "") (Query.ofList [("page", .string "0")])
  have hpage : resolvePage (fun _ => "") (Query.ofList [("page", .string "0")]) = .finite 1 :=
    h.2.2.1 0 (by decide) (by decide)
  have hlimit : resolveLimit (fun _ => "") (Query.ofList [("page", .string "0")])
      = .finite ((20 : Int) : ℚ) := by
    rw [resolveLimit_eq]
    have : parseIntDigits (toStringValue (fun _ => "")
        (Query.ofList [("page", .string "0")] "limit")) = none := by decide
    rw [this]
    norm_num
  refine ⟨hpage, ?_⟩
  have hs := (h.2.2.2.2.2.2 1 20 (by rw [hpage]; norm_num) hlimit (by norm_num)).1
  rw [hs]
  norm_num

theorem totalPages_of_int (t : Nat) (l : Int) (hl1 : 1 ≤ l) (ht : t ≤ 2 ^ 53) :
    totalPages (.finite (t : ℚ)) (.finite (l : ℚ))
      = .finite ((max ⌈(t : ℚ) / (l : ℚ)⌉ 1 : Int) : ℚ) := by
  have hB := overflowBound_large
  have hlq : (1 : ℚ) ≤ (l : ℚ) := by exact_mod_cast hl1
  have hl0 : ¬ (l : ℚ) = 0 := by linarith
  have htq : (t : ℚ) ≤ (2 : ℚ) ^ 53 := by exact_mod_cast ht
  have ht0 : (0 : ℚ) ≤ (t : ℚ) := Nat.cast_nonneg t
  have hq0 : (0 : ℚ) ≤ (t : ℚ) / (l : ℚ) := div_nonneg ht0 (by linarith)
  have hqle : (t : ℚ) / (l : ℚ) ≤ (t : ℚ) := div_le_self ht0 hlq
  have hfin : |(t : ℚ) / (l : ℚ)| < overflowBound := by
    rw [abs_of_nonneg hq0]; linarith
  simp only [totalPages, JSNumber.div, hl0, if_false, ofExact_of_lt _ hfin, mathCeil, mathMax,
    JSNumber.lt]
  by_cases hc : ⌈(t : ℚ) / (l : ℚ)⌉ < 1
  · have hcq : ((⌈(t : ℚ) / (l : ℚ)⌉ : Int) : ℚ) < 1 := by exact_mod_cast hc
    have hm : max ⌈(t : ℚ) / (l : ℚ)⌉ 1 = 1 := max_eq_right (le_of_lt hc)
    simp [hcq, hm]
  · have hcq : ¬ ((⌈(t : ℚ) / (l : ℚ)⌉ : Int) : ℚ) < 1 := by
      intro h; exact hc (by exact_mod_cast h)
    have hm : max ⌈(t : ℚ) / (l : ℚ)⌉ 1 = ⌈(t : ℚ) / (l : ℚ)⌉ := max_eq_left (not_lt.1 hc)
    simp [hcq, hm]

/-- C13: for a total count `t` (an integer a number holds exactly, at most
`2^53`) and the resolved limit `l`, the reported `totalPages` is
`max(ceil(t / l), 1)`: it is at least 1, also for `t = 0`, and it is the least
`n >= 1` with `n * l >= t`. -/
theorem C13_totalPages (numberToString : JSNumber → String) (q : Query) (t : Nat)
    (ht : t ≤ 2 ^ 53) :
    ∃ l : Int, resolveLimit numberToString q = .finite (l : ℚ) ∧ 1 ≤ l ∧ l ≤ 100
      ∧ totalPages (.finite (t : ℚ)) (resolveLimit numberToString q)
          = .finite ((max ⌈(t : ℚ) / (l : ℚ)⌉ 1 : Int) : ℚ)
      ∧ 1 ≤ max ⌈(t : ℚ) / (l : ℚ)⌉ 1
      ∧ (t : Int) ≤ max ⌈(t : ℚ) / (l : ℚ)⌉ 1 * l
      ∧ ∀ n : Int, 1 ≤ n → (t : Int) ≤ n * l → max ⌈(t : ℚ) / (l : ℚ)⌉ 1 ≤ n := by
  obtain ⟨l, hl, hl1, hl100⟩ := resolveLimit_range numberToString q
  have hlq : (0 : ℚ) < (l : ℚ) := by
    have : (1 : ℚ) ≤ (l : ℚ) := by exact_mod_cast hl1
    linarith
  refine ⟨l, hl, hl1, hl100, ?_, le_max_right _ _, ?_, ?_⟩
  · rw [hl]; exact totalPages_of_int t l hl1 ht
  · have h1 : (t : ℚ) / (l : ℚ) ≤ ((max ⌈(t : ℚ) / (l : ℚ)⌉ 1 : Int) : ℚ) :=
      le_trans (Int.le_ceil _) (by exact_mod_cast le_max_left _ _)
    have h2 : (t : ℚ) ≤ ((max ⌈(t : ℚ) / (l : ℚ)⌉ 1 : Int) : ℚ) * (l : ℚ) :=
      (div_le_iff₀ hlq).1 h1
    exact_mod_cast h2
  · intro n hn hle
    have hle2 : (t : ℚ) ≤ (n : ℚ) * (l : ℚ) := by exact_mod_cast hle
    have h1 : (t : ℚ) / (l : ℚ) ≤ (n : ℚ) := (div_le_iff₀ hlq).2 hle2
    exact max_le (Int.ceil_le.2 h1) hn

/-- C13 at a total of 0 with no `limit` parameter: one page is reported. -/
theorem C13_totalPages_witness :
    (0 : Nat) ≤ 2 ^ 53
      ∧ totalPages (.finite ((0 : Nat) : ℚ)) (resolveLimit (fun _ => "") (Query.ofList []))
          = .finite 1 := by
  refine ⟨by norm_num, ?_⟩
  obtain ⟨l, -, -, -, h, -, -, -⟩ :=
    C13_totalPages (fun _ => "") (Query.ofList []) 0 (by norm_num)
  rw [h]
  norm_num

/-! ## The request handlers -/

theorem isMissingField_iff (v : JSValue) :
    isMissingField v = true ↔
      v = .undefined ∨ v = .null ∨ ∃ s, v = .string s ∧ isBlank s = true := by
  cases v <;> simp [isMissingField, isBlank]

theorem createLead_required_any (body : Body) :
    ([body.get "first_name", body.get "last_name", body.get "email", body.get "phone",
        body.get "company", body.get "city", body.get "state", body.get "source",
        body.get "status", body.get "lead_value"].any isMissingField = true)
      ↔ ∃ f ∈ requiredFields, isMissingField (body.get f) = true := by
  simp [requiredFields, or_assoc]

/-- C14: `createLead` fails with status 400 without a call to the repository iff
one of the ten required fields is missing (reads as `undefined`), `null`, or a
string that is empty after trimming; otherwise it calls `create` exactly once. -/
theorem C14_createLead_validation (repo : Repository) (body : Body) :
    (((createLead repo body).outcome = .threw ⟨400, "Please provide all required fields."⟩
          ∧ (createLead repo body).calls = []) ↔
        ∃ f ∈ requiredFields, body.get f = .undefined ∨ body.get f = .null
          ∨ ∃ s, body.get f = .string s ∧ isBlank s = true)
      ∧ ((∃ message, (createLead repo body).outcome = .threw ⟨400, message⟩) ↔
        ∃ f ∈ requiredFields, body.get f = .undefined ∨ body.get f = .null
          ∨ ∃ s, body.get f = .string s ∧ isBlank s = true)
      ∧ ((¬ ∃ f ∈ requiredFields, body.get f = .undefined ∨ body.get f = .null
            ∨ ∃ s, body.get f = .string s ∧ isBlank s = true) →
          ∃ doc, (createLead repo body).calls = [.create doc]) := by
  have hmiss : (∃ f ∈ requiredFields, body.get f = .undefined ∨ body.get f = .null
      ∨ ∃ s, body.get f = .string s ∧ isBlank s = true)
      ↔ ∃ f ∈ requiredFields, isMissingField (body.get f) = true := by
    constructor
    · rintro ⟨f, hf, h⟩; exact ⟨f, hf, (isMissingField_iff _).2 h⟩
    · rintro ⟨f, hf, h⟩; exact ⟨f, hf, (isMissingField_iff _).1 h⟩
  rw [hmiss, ← createLead_required_any]
  by_cases hany : [body.get "first_name", body.get "last_name", body.get "email",
      body.get "phone", body.get "company", body.get "city", body.get "state",
      body.get "source", body.get "status", body.get "lead_value"].any isMissingField = true
  · have hrun : createLead repo body
        = { calls := [], outcome := .threw ⟨400, "Please provide all required fields."⟩ } := by
      unfold createLead
      simp only [hany, if_true]
    rw [hrun]
    simp [hany]
  · simp only [hany, iff_false, not_false_eq_true, true_implies]
    unfold createLead
    simp only [hany, Bool.false_eq_true, if_false]
    cases repo.create _ <;> simp

/-- C14 at a body with a numeric `lead_value` of 0, which is accepted and stored
by one call, and at the same body without `status`, which is rejected. -/
theorem C14_createLead_validation_witness :
    (createLead emptyRepository
        [("first_name", .string "Ada"), ("last_name", .string "Lovelace"),
          ("email", .string "ada@example.com"), ("phone", .string "555"),
          ("company", .string "Acme"), ("city", .string "London"), ("state", .string "LN"),
          ("source", .string "website"), ("status", .string "new"),
          ("lead_value", .number (.finite 0))]).calls.length = 1
      ∧ (createLead emptyRepository
        [("first_name", .string "Ada"), ("last_name", .string "Lovelace"),
          ("email", .string "ada@example.com"), ("phone", .string "555"),
          ("company", .string "Acme"), ("city", .string "London"), ("state", .string "LN"),
          ("source", .string "website"),
          ("lead_value", .number (.finite 0))]).outcome
        = .threw ⟨400, "Please provide all required fields."⟩ := by
  constructor
  · obtain ⟨doc, h⟩ := (C14_createLead_validation emptyRepository
        [("first_name", .string "Ada"), ("last_name", .string "Lovelace"),
          ("email", .string "ada@example.com"), ("phone", .string "555"),
          ("company", .string "Acme"), ("city", .string "London"), ("state", .string "LN"),
          ("source", .string "website"), ("status", .string "new"),
          ("lead_value", .number (.finite 0))]).2.2 (by
        rintro ⟨f, hf, h⟩
        have hm := (isMissingField_iff _).2 h
        simp only [requiredFields, List.mem_cons, List.mem_singleton, List.mem_nil_iff,
          or_false] at hf
        rcases hf with rfl | rfl | rfl | rfl | rfl | rfl | rfl | rfl | rfl | rfl <;>
          exact absurd hm (by decide))
    rw [h]; rfl
  · exact ((C14_createLead_validation emptyRepository _).1.2
      ⟨"status", by decide, Or.inl (by decide)⟩).1

theorem Body.lookup_set (body : Body) (field key : String) (v : JSValue) :
    (body.set field v).lookup key = if field = key then some v else body.lookup key := by
  induction body with
  | nil => simp [Body.set, Body.lookup]
  | cons p rest ih =>
    obtain ⟨k, old⟩ := p
    by_cases hk : k = field
    · subst hk
      by_cases hkey : k = key <;> simp [Body.set, Body.lookup, hkey]
    · by_cases hkey : k = key
      · subst hkey
        have : ¬ field = k := fun h => hk h.symm
        simp [Body.set, Body.lookup, hk, this]
      · simp [Body.set, Body.lookup, hk, hkey, ih]

theorem Body.keys_set (body : Body) (field : String) (v : JSValue) :
    (body.set field v).map Prod.fst
      = if field ∈ body.map Prod.fst then body.map Prod.fst else body.map Prod.fst ++ [field] := by
  induction body with
  | nil => simp [Body.set]
  | cons p rest ih =>
    obtain ⟨k, old⟩ := p
    by_cases hk : k = field
    · subst hk
      simp [Body.set]
    · have hk2 : ¬ field = k := fun h => hk h.symm
      simp only [Body.set, hk, if_false, List.map_cons, ih, List.mem_cons, hk2, false_or]
      by_cases hm : field ∈ rest.map Prod.fst
      · simp [hm]
      · simp [hm]

theorem Body.keys_nodup_set (body : Body) (field : String) (v : JSValue)
    (h : (body.map Prod.fst).Nodup) : ((body.set field v).map Prod.fst).Nodup := by
  rw [Body.keys_set]
  by_cases hm : field ∈ body.map Prod.fst
  · simpa [hm] using h
  · simp only [hm, if_false]
    rw [List.nodup_append]
    refine ⟨h, List.nodup_singleton _, ?_⟩
    intro a ha hb
    rw [List.mem_singleton] at hb
    subst hb
    exact hm ha

theorem Body.get_of_hasOwn (body : Body) (key : String) (h : body.hasOwn key = true) :
    some (body.get key) = body.lookup key := by
  unfold Body.hasOwn at h
  unfold Body.get
  cases hl : body.lookup key with
  | none => rw [hl] at h; exact absurd h (by decide)
  | some v => rfl

theorem payload_foldl_lookup (body : Body) (fields : List String) (payload : Body)
    (key : String) :
    (fields.foldl
        (fun payload field =>
          if body.hasOwn field then payload.set field (body.get field) else payload)
        payload).lookup key
      = if key ∈ fields ∧ body.hasOwn key = true then body.lookup key
        else payload.lookup key := by
  induction fields generalizing payload with
  | nil => simp
  | cons f rest ih =>
    rw [List.foldl_cons, ih]
    by_cases hr : key ∈ rest ∧ body.hasOwn key = true
    · have : key ∈ f :: rest ∧ body.hasOwn key = true := ⟨List.mem_cons_of_mem f hr.1, hr.2⟩
      simp only [hr, this, and_self, if_true]
    · simp only [hr, if_false]
      by_cases hf : f = key
      · subst hf
        by_cases hown : body.hasOwn f = true
        · simp [hown, Body.lookup_set, Body.get_of_hasOwn body f hown]
        · simp [hown]
      · have hkf : ¬ key = f := fun h => hf h.symm
        have hne : ¬ (key ∈ f :: rest ∧ body.hasOwn key = true) := by
          rintro ⟨hm, ho⟩
          rcases List.mem_cons.1 hm with h | h
          · exact hkf h
          · exact hr ⟨h, ho⟩
        simp only [hne, if_false]
        by_cases hown : body.hasOwn f = true
        · simp [hown, Body.lookup_set, hf]
        · simp [hown]

theorem payload_foldl_nodup (body : Body) (fields : List String) (payload : Body)
    (h : (payload.map Prod.fst).Nodup) :
    ((fields.foldl
        (fun payload field =>
          if body.hasOwn field then payload.set field (body.get field) else payload)
        payload).map Prod.fst).Nodup := by
  induction fields generalizing payload with
  | nil => simpa using h
  | cons f rest ih =>
    rw [List.foldl_cons]
    apply ih
    by_cases hown : body.hasOwn f = true
    · simp only [hown, if_true]
      exact Body.keys_nodup_set payload f _ h
    · simpa [hown] using h

theorem updatePayload_lookup (body : Body) (key : String) :
    (updatePayload body).lookup key
      = if key ∈ updatableFields then body.lookup key else none := by
  unfold updatePayload
  rw [payload_foldl_lookup]
  by_cases hm : key ∈ updatableFields
  · by_cases hown : body.hasOwn key = true
    · simp [hm, hown]
    · have hnone : body.lookup key = none := by
        unfold Body.hasOwn at hown
        cases hl : body.lookup key with
        | none => rfl
        | some v => rw [hl] at hown; exact absurd rfl hown
      simp [hm, hown, hnone, Body.lookup]
  · simp [hm, Body.lookup]

theorem Body.eq_nil_iff_lookup (body : Body) : body = [] ↔ ∀ key, body.lookup key = none := by
  constructor
  · intro h key; rw [h]; rfl
  · intro h
    cases body with
    | nil => rfl
    | cons p rest =>
      obtain ⟨k, v⟩ := p
      have := h k
      simp [Body.lookup] at this

theorem updatePayload_empty_iff (body : Body) :
    (updatePayload body).length = 0 ↔ ∀ f ∈ updatableFields, body.hasOwn f = false := by
  rw [List.length_eq_zero, Body.eq_nil_iff_lookup]
  constructor
  · intro h f hf
    have := h f
    rw [updatePayload_lookup, if_pos hf] at this
    simp [Body.hasOwn, this]
  · intro h key
    rw [updatePayload_lookup]
    by_cases hm : key ∈ updatableFields
    · have := h key hm
      unfold Body.hasOwn at this
      rw [if_pos hm]
      cases hl : body.lookup key with
      | none => rfl
      | some v => rw [hl] at this; simp at this
    · rw [if_neg hm]

/-- C15: for a request with a non-empty id, `updateLead` fails with status 400
without a call to the repository iff the body has none of the thirteen
whitelisted fields as an own key. -/
theorem C15_updateLead_rejects (repo : Repository) (id : JSValue) (body : Body)
    (hid : truthy id = true) :
    (((updateLead repo id body).outcome = .threw ⟨400, "No valid fields provided for update"⟩
          ∧ (updateLead repo id body).calls = []) ↔
        ∀ f ∈ updatableFields, body.hasOwn f = false)
      ∧ ((∃ message, (updateLead repo id body).outcome = .threw ⟨400, message⟩) ↔
        ∀ f ∈ updatableFields, body.hasOwn f = false) := by
  rw [← updatePayload_empty_iff]
  by_cases hlen : (updatePayload body).length = 0
  · have hrun : updateLead repo id body
        = { calls := [], outcome := .threw ⟨400, "No valid fields provided for update"⟩ } := by
      unfold updateLead
      simp [hid, hlen]
    rw [hrun]
    simp [hlen]
  · simp only [hlen, iff_false]
    unfold updateLead
    simp only [hid, Bool.not_true, Bool.false_eq_true, if_false, hlen]
    cases repo.findByIdAndUpdate id (updatePayload body) with
    | rejected reason => simp
    | resolved r => cases r <;> simp

/-- C15 at the bodies of the specification, with the id `abc`: the empty body and
a body with only `unknown_field` are rejected with 400, a body with `status` and
`unknown_field` is not. -/
theorem C15_updateLead_rejects_witness :
    truthy (.string "abc") = true
      ∧ (updateLead emptyRepository (.string "abc") []).outcome
          = .threw ⟨400, "No valid fields provided for update"⟩
      ∧ (updateLead emptyRepository (.string "abc") [("unknown_field", .string "x")]).outcome
          = .threw ⟨400, "No valid fields provided for update"⟩
      ∧ ¬ ∃ message, (updateLead emptyRepository (.string "abc")
          [("status", .string "won"), ("unknown_field", .string "x")]).outcome
          = .threw ⟨400, message⟩ := by
  refine ⟨by decide, ?_, ?_, ?_⟩
  · exact ((C15_updateLead_rejects emptyRepository (.string "abc") [] (by decide)).1.2
      (by decide)).1
  · exact ((C15_updateLead_rejects emptyRepository (.string "abc")
      [("unknown_field", .string "x")] (by decide)).1.2 (by decide)).1
  · intro h
    have := (C15_updateLead_rejects emptyRepository (.string "abc")
      [("status", .string "won"), ("unknown_field", .string "x")] (by decide)).2.1 h
    exact absurd (this "status" (by decide)) (by decide)

/-- C16: the update `updateLead` hands to the repository is the body restricted to
the whitelist: under a whitelisted key it holds what the body holds under that
key, unchanged, and it holds no other key (so never `created_at`, `updated_at`,
`id` or `_id`); each of its keys occurs once; and every call the handler makes
is `findByIdAndUpdate` with the request id and this update. -/
theorem C16_update_payload (repo : Repository) (id : JSValue) (body : Body) :
    (∀ key, (updatePayload body).lookup key
        = if key ∈ updatableFields then body.lookup key else none)
      ∧ ((updatePayload body).map Prod.fst).Nodup
      ∧ (updatePayload body).lookup "created_at" = none
      ∧ (updatePayload body).lookup "updated_at" = none
      ∧ (updatePayload body).lookup "id" = none
      ∧ (updatePayload body).lookup "_id" = none
      ∧ ∀ call ∈ (updateLead repo id body).calls,
          call = .findByIdAndUpdate id (updatePayload body) := by
  refine ⟨updatePayload_lookup body, ?_, ?_, ?_, ?_, ?_, ?_⟩
  · exact payload_foldl_nodup body updatableFields [] (by simp)
  · rw [updatePayload_lookup, if_neg (by decide)]
  · rw [updatePayload_lookup, if_neg (by decide)]
  · rw [updatePayload_lookup, if_neg (by decide)]
  · rw [updatePayload_lookup, if_neg (by decide)]
  · intro call hcall
    unfold updateLead at hcall
    by_cases hid : truthy id = true
    · by_cases hlen : (updatePayload body).length = 0
      · simp [hid, hlen] at hcall
      · simp only [hid, Bool.not_true, Bool.false_eq_true, if_false, hlen] at hcall
        cases hr : repo.findByIdAndUpdate id (updatePayload body) with
        | rejected reason => rw [hr] at hcall; simpa using hcall
        | resolved r =>
          rw [hr] at hcall
          cases r <;> simpa using hcall
    · have hid2 : truthy id = false := by simpa using hid
      simp [hid2] at hcall

theorem getLeadById_run (repo : Repository) (id : JSValue) :
    getLeadById repo id
      = if truthy id = false then
          { calls := [], outcome := .threw ⟨400, "Lead id is required"⟩ }
        else
          match repo.findById id with
          | .resolved none =>
            { calls := [.findById id], outcome := .threw ⟨404, "Lead not found"⟩ }
          | .resolved (some lead) =>
            { calls := [.findById id],
              outcome := .responded 200 ⟨200, lead, "Lead fetched successfully"⟩ }
          | .rejected reason => { calls := [.findById id], outcome := .rejected reason } := by
  unfold getLeadById
  cases truthy id <;> simp

theorem deleteLead_run (repo : Repository) (id : JSValue) :
    deleteLead repo id
      = if truthy id = false then
          { calls := [], outcome := .threw ⟨400, "Lead id is required"⟩ }
        else
          match repo.findByIdAndDelete id with
          | .resolved none =>
            { calls := [.findByIdAndDelete id], outcome := .threw ⟨404, "Lead not found"⟩ }
          | .resolved (some _) =>
            { calls := [.findByIdAndDelete id],
              outcome := .responded 200 ⟨200, [], "Lead deleted successfully"⟩ }
          | .rejected reason =>
            { calls := [.findByIdAndDelete id], outcome := .rejected reason } := by
  unfold deleteLead
  cases truthy id <;> simp

theorem updateLead_run (repo : Repository) (id : JSValue) (body : Body)
    (hbody : ∃ f ∈ updatableFields, body.hasOwn f = true) :
    updateLead repo id body
      = if truthy id = false then
          { calls := [], outcome := .threw ⟨400, "Lead id is required"⟩ }
        else
          match repo.findByIdAndUpdate id (updatePayload body) with
          | .resolved none =>
            { calls := [.findByIdAndUpdate id (updatePayload body)],
              outcome := .threw ⟨404, "Lead not found"⟩ }
          | .resolved (some updatedLead) =>
            { calls := [.findByIdAndUpdate id (updatePayload body)],
              outcome := .responded 200 ⟨200, updatedLead, "Lead updated successfully"⟩ }
          | .rejected reason =>
            { calls := [.findByIdAndUpdate id (updatePayload body)],
              outcome := .rejected reason } := by
  have hlen : ¬ (updatePayload body).length = 0 := by
    rw [updatePayload_empty_iff]
    intro h
    obtain ⟨f, hf, hown⟩ := hbody
    rw [h f hf] at hown
    exact absurd hown (by decide)
  unfold updateLead
  cases truthy id <;> simp [hlen]

/-- C18: for `getLeadById`, `deleteLead` and `updateLead` (with a body that holds a
whitelisted field), over any repository: the handler fails with 400 iff the id
is missing or empty (falsy), then without a call to the repository; it fails
with 404 iff the id is given and the repository resolves to no lead; and it
answers 200 iff the id is given and the repository resolves to a lead. -/
theorem C18_id_outcomes (repo : Repository) (id : JSValue) (body : Body)
    (hbody : ∃ f ∈ updatableFields, body.hasOwn f = true) :
    (((∃ message, (getLeadById repo id).outcome = .threw ⟨400, message⟩) ↔ truthy id = false)
        ∧ (truthy id = false → (getLeadById repo id).calls = [])
        ∧ ((∃ message, (getLeadById repo id).outcome = .threw ⟨404, message⟩) ↔
            truthy id = true ∧ repo.findById id = .resolved none)
        ∧ ((∃ response, (getLeadById repo id).outcome = .responded 200 response) ↔
            truthy id = true ∧ ∃ lead, repo.findById id = .resolved (some lead)))
      ∧ (((∃ message, (updateLead repo id body).outcome = .threw ⟨400, message⟩) ↔
            truthy id = false)
        ∧ (truthy id = false → (updateLead repo id body).calls = [])
        ∧ ((∃ message, (updateLead repo id body).outcome = .threw ⟨404, message⟩) ↔
            truthy id = true ∧ repo.findByIdAndUpdate id (updatePayload body) = .resolved none)
        ∧ ((∃ response, (updateLead repo id body).outcome = .responded 200 response) ↔
            truthy id = true
              ∧ ∃ lead, repo.findByIdAndUpdate id (updatePayload body) = .resolved (some lead)))
      ∧ (((∃ message, (deleteLead repo id).outcome = .threw ⟨400, message⟩) ↔ truthy id = false)
        ∧ (truthy id = false → (deleteLead repo id).calls = [])
        ∧ ((∃ message, (deleteLead repo id).outcome = .threw ⟨404, message⟩) ↔
            truthy id = true ∧ repo.findByIdAndDelete id = .resolved none)
        ∧ ((∃ response, (deleteLead repo id).outcome = .responded 200 response) ↔
            truthy id = true ∧ ∃ lead, repo.findByIdAndDelete id = .resolved (some lead))) := by
  rw [getLeadById_run, deleteLead_run, updateLead_run repo id body hbody]
  refine ⟨?_, ?_, ?_⟩
  · cases hid : truthy id
    · simp
    · cases hr : repo.findById id with
      | rejected reason => simp
      | resolved r => cases r <;> simp
  · cases hid : truthy id
    · simp
    · cases hr : repo.findByIdAndUpdate id (updatePayload body) with
      | rejected reason => simp
      | resolved r => cases r <;> simp
  · cases hid : truthy id
    · simp
    · cases hr : repo.findByIdAndDelete id with
      | rejected reason => simp
      | resolved r => cases r <;> simp

/-- C18 at the id `abc` and the body `status=won`: a repository without documents
gives 404 from the three handlers, a missing id gives 400, and a repository that
holds a lead gives 200. -/
theorem C18_id_outcomes_witness :
    (∃ f ∈ updatableFields, Body.hasOwn [("status", .string "won")] f = true)
      ∧ (getLeadById emptyRepository (.string "abc")).outcome = .threw ⟨404, "Lead not found"⟩
      ∧ (getLeadById emptyRepository .undefined).outcome = .threw ⟨400, "Lead id is required"⟩
      ∧ ∃ response, (deleteLead (repositoryWith [("email", .string "a@b.c")])
          (.string "abc")).outcome = .responded 200 response := by
  have hb : ∃ f ∈ updatableFields, Body.hasOwn [("status", .string "won")] f = true :=
    ⟨"status", by decide, by decide⟩
  refine ⟨hb, by decide, by decide, ?_⟩
  exact (C18_id_outcomes (repositoryWith [("email", .string "a@b.c")]) (.string "abc")
    [("status", .string "won")] hb).2.2.2.2.2.2 ⟨by decide, _, rfl⟩

/-! ## The exceptions of the filter construction -/

theorem mapM_callTrim (tokens : List String) :
    (tokens.mapM fun s => callTrim (.string s)) = Except.ok (tokens.map trim) := by
  induction tokens with
  | nil => rfl
  | cons t rest ih =>
    rw [List.mapM_cons, ih]
    rfl

theorem toPrimitiveRaises_element (parts : List String) (i : Nat) :
    toPrimitiveRaises (element parts i) = false := by
  unfold element
  cases parts.get? i <;> rfl

theorem parseNumberChecked_eq (value : JSValue) (h : toPrimitiveRaises value = false) :
    parseNumberChecked value = Except.ok (parseNumber value) := by
  unfold parseNumberChecked toNumberChecked parseNumber
  simp only [h, Bool.false_eq_true, if_false]
  show (match toNumber value with
    | .finite x => Except.ok (some x)
    | _ => Except.ok none) = _
  cases toNumber value <;> rfl

theorem parseNumberChecked_raises (value : JSValue) (h : toPrimitiveRaises value = true) :
    parseNumberChecked value
      = Except.error (.typeError "Cannot convert object to primitive value") := by
  unfold parseNumberChecked toNumberChecked
  simp only [h, if_true]
  rfl

theorem parseDateChecked_eq (rt : Runtime) (value : JSValue)
    (h : toPrimitiveRaises value = false) :
    parseDateChecked rt value = Except.ok (parseDate rt value) := by
  unfold parseDateChecked newDateChecked parseDate
  simp only [h, Bool.false_eq_true, if_false]

theorem parseDateChecked_raises (rt : Runtime) (value : JSValue)
    (h : toPrimitiveRaises value = true) :
    parseDateChecked rt value
      = Except.error (.typeError "Cannot convert object to primitive value") := by
  unfold parseDateChecked newDateChecked
  simp only [h, if_true]

theorem parseIntChecked_eq (numberToString : JSNumber → String) (value : JSValue)
    (h : toPrimitiveRaises value = false) :
    parseIntChecked numberToString value = Except.ok (parseInt numberToString value) := by
  unfold parseIntChecked
  simp only [h, Bool.false_eq_true, if_false]

theorem parseBooleanChecked_eq (value : JSValue) :
    parseBooleanChecked value = Except.ok (parseBoolean value) := by
  cases value with
  | string s =>
    simp only [parseBooleanChecked, parseBoolean, isString, if_true, callToLowerCase]
    show (if toLowerCase s = "true" then Except.ok (some true)
      else if toLowerCase s = "false" then Except.ok (some false) else Except.ok none) = _
    by_cases h1 : toLowerCase s = "true"
    · simp [h1]
    · by_cases h2 : toLowerCase s = "false" <;> simp [h1, h2]
  | _ => rfl

theorem enumConstraintChecked_eq (q : Query) (field : String) :
    enumConstraintChecked q field = Except.ok (enumConstraint q field) := by
  unfold enumConstraintChecked enumConstraint
  by_cases heq : (truthy (q field) && isString (q field)) = true
  · simp only [heq, if_true]; rfl
  · simp only [heq, if_false]
    cases hin : q (field ++ "_in") with
    | string list =>
      by_cases ht : truthy (.string list) = true
      · simp only [ht, isString, Bool.and_self, if_true, callSplitComma]
        show (do
          let trimmed ← (splitComma list).mapM fun s => callTrim (.string s)
          if (trimmed.filter fun s => truthy (.string s)).length > 0 then
            Except.ok (some (Constraint.isIn (trimmed.filter fun s => truthy (.string s))))
          else Except.ok none) = _
        rw [mapM_callTrim]
        show (if (((splitComma list).map trim).filter fun s => truthy (.string s)).length > 0 then
            Except.ok (some (Constraint.isIn (((splitComma list).map trim).filter
              fun s => truthy (.string s))))
          else Except.ok none) = _
        by_cases hl : (((splitComma list).map trim).filter
            fun s => truthy (.string s)).length > 0
        · simp [hl]
        · simp [hl]
      · simp only [ht, Bool.false_and, Bool.false_eq_true, if_false]
        rfl
    | _ =>
      simp only [truthy, isString, Bool.and_false, Bool.false_and, Bool.false_eq_true, if_false]
      rfl

theorem numberConstraintChecked_eq (q : Query) (field : String)
    (h1 : toPrimitiveRaises (q field) = false)
    (h2 : toPrimitiveRaises (q (field ++ "_gt")) = false)
    (h3 : toPrimitiveRaises (q (field ++ "_lt")) = false) :
    numberConstraintChecked q field = Except.ok (numberConstraint q field) := by
  unfold numberConstraintChecked numberConstraint
  simp only [parseNumberChecked_eq _ h1, parseNumberChecked_eq _ h2, parseNumberChecked_eq _ h3,
    parseNumberChecked_eq _ (toPrimitiveRaises_element _ _), bind, Except.bind]
  cases heq : parseNumber (q field) with
  | some n => rfl
  | none =>
    cases hbw : q (field ++ "_between") with
    | string text =>
      by_cases ht : truthy (.string text) = true
      · simp only [ht, isString, Bool.and_self, if_true, callSplitComma, mapM_callTrim]
        cases parseNumber (element ((splitComma text).map trim) 0) <;>
        cases parseNumber (element ((splitComma text).map trim) 1) <;>
        simp only [pure, Except.pure] <;>
        exact (apply_ite Except.ok _ _ _).symm
      · simp only [ht, Bool.false_and, Bool.false_eq_true, if_false]
        simp only [pure, Except.pure]
        exact (apply_ite Except.ok _ _ _).symm
    | _ =>
      simp only [isString, Bool.and_false, Bool.false_eq_true, if_false]
      simp only [pure, Except.pure]
      exact (apply_ite Except.ok _ _ _).symm

theorem dateParameterChecked_eq (rt : Runtime) (value : JSValue)
    (h : toPrimitiveRaises value = false) :
    dateParameterChecked rt value
      = Except.ok (if truthy value then parseDate rt value else none) := by
  unfold dateParameterChecked
  rw [parseDateChecked_eq rt value h]
  cases truthy value <;> rfl

theorem dateConstraintChecked_eq (rt : Runtime) (q : Query) (field : String)
    (h1 : toPrimitiveRaises (q (field ++ "_on")) = false)
    (h2 : toPrimitiveRaises (q (field ++ "_before")) = false)
    (h3 : toPrimitiveRaises (q (field ++ "_after")) = false) :
    dateConstraintChecked rt q field = Except.ok (dateConstraint rt q field) := by
  unfold dateConstraintChecked dateConstraint
  simp only [dateParameterChecked_eq rt _ h1, dateParameterChecked_eq rt _ h2,
    dateParameterChecked_eq rt _ h3,
    parseDateChecked_eq rt _ (toPrimitiveRaises_element _ _)]
  simp only [bind, Except.bind]
  cases hon : (if truthy (q (field ++ "_on")) then parseDate rt (q (field ++ "_on")) else none)
    with
  | some d => rfl
  | none =>
    cases hbw : q (field ++ "_between") with
    | string text =>
      by_cases ht : truthy (.string text) = true
      · simp only [ht, isString, Bool.and_self, if_true, callSplitComma, mapM_callTrim]
        cases parseDate rt (element ((splitComma text).map trim) 0) <;>
        cases parseDate rt (element ((splitComma text).map trim) 1) <;>
        simp only [pure, Except.pure] <;>
        exact (apply_ite Except.ok _ _ _).symm
      · simp only [ht, Bool.false_and, Bool.false_eq_true, if_false]
        simp only [pure, Except.pure]
        exact (apply_ite Except.ok _ _ _).symm
    | _ =>
      simp only [isString, Bool.and_false, Bool.false_eq_true, if_false]
      simp only [pure, Except.pure]
      exact (apply_ite Except.ok _ _ _).symm

theorem booleanConstraintChecked_eq (q : Query) :
    booleanConstraintChecked q = Except.ok (booleanConstraint q) := by
  unfold booleanConstraintChecked booleanConstraint
  by_cases h : q "is_qualified" ≠ .undefined
  · rw [if_pos h, if_pos h, parseBooleanChecked_eq]
    simp only [bind, Except.bind]
    cases parseBoolean (q "is_qualified") <;> rfl
  · rw [if_neg h, if_neg h]
    rfl

/-- When no parameter is an object with an own key `toString`, the filter
construction runs to its end, without an exception, and ends with the filter of
`getLeadsFilter`: the calls of `toLowerCase`, `split` and `trim` are all made on
strings. -/
theorem getLeadsFilterChecked_eq (rt : Runtime) (q : Query)
    (hq : ∀ p, toPrimitiveRaises (q p) = false) :
    getLeadsFilterChecked rt q = Except.ok (getLeadsFilter rt q) := by
  unfold getLeadsFilterChecked getLeadsFilter
  simp only [enumConstraintChecked_eq, numberConstraintChecked_eq _ _ (hq _) (hq _) (hq _),
    dateConstraintChecked_eq rt _ _ (hq _) (hq _) (hq _),
    booleanConstraintChecked_eq, stringFields, enumFields, numberFields, dateFields,
    List.foldlM, List.foldl]
  rfl

/-- C17, evaluated where it fails: the parameter `score` is a nested object with an
own key `toString`, as the query `?score[toString]=x` gives it under Express 4.
The handler calls `Number` on it without a test, the object does not convert to
a primitive, and the filter construction ends with a `TypeError`; likewise
`new Date` on such an object under `created_at_on`. -/
theorem C17_conversion_raises :
    toPrimitiveRaises (.object ["toString"]) = true
      ∧ getLeadsFilterChecked (runtimeAt 0 fun _ => none)
          (Query.ofList [("score", .object ["toString"])])
          = Except.error (.typeError "Cannot convert object to primitive value")
      ∧ getLeadsFilterChecked (runtimeAt 0 fun _ => none)
          (Query.ofList [("created_at_on", .object ["toString"])])
          = Except.error (.typeError "Cannot convert object to primitive value") := by
  refine ⟨by decide, ?_, ?_⟩
  · rfl
  · rfl

/-! ## The keys of the filter -/

theorem Filter.mem_keys_iff (filter : Filter) (key : String) :
    key ∈ filter.keys ↔ filter.get key ≠ none := by
  induction filter with
  | nil => simp [Filter.keys, Filter.get]
  | cons p rest ih =>
    obtain ⟨k, c⟩ := p
    unfold Filter.keys at ih ⊢
    by_cases hk : k = key
    · simp [Filter.get, hk]
    · have hk2 : ¬ key = k := fun h => hk h.symm
      simp [Filter.get, hk, hk2, ih]

theorem Filter.eq_nil_iff_get (filter : Filter) : filter = [] ↔ ∀ key, filter.get key = none := by
  constructor
  · intro h key; rw [h]; rfl
  · intro h
    cases filter with
    | nil => rfl
    | cons p rest =>
      obtain ⟨k, c⟩ := p
      have := h k
      simp [Filter.get] at this

theorem stringConstraint_absent (q : Query) (field : String)
    (h1 : q field = .undefined) (h2 : q (field ++ "_contains") = .undefined) :
    stringConstraint q field = none := by
  simp [stringConstraint, h1, h2, truthy, isString]

theorem enumConstraint_absent (q : Query) (field : String)
    (h1 : q field = .undefined) (h2 : q (field ++ "_in") = .undefined) :
    enumConstraint q field = none := by
  simp [enumConstraint, h1, h2, truthy, isString]

theorem numberConstraint_absent (q : Query) (field : String)
    (h1 : q field = .undefined) (h2 : q (field ++ "_gt") = .undefined)
    (h3 : q (field ++ "_lt") = .undefined) (h4 : q (field ++ "_between") = .undefined) :
    numberConstraint q field = none := by
  simp [numberConstraint, h1, h2, h3, h4, parseNumber_undefined, NumberRange.keyCount]

theorem dateConstraint_absent (rt : Runtime) (q : Query) (field : String)
    (h1 : q (field ++ "_on") = .undefined) (h2 : q (field ++ "_before") = .undefined)
    (h3 : q (field ++ "_after") = .undefined) (h4 : q (field ++ "_between") = .undefined) :
    dateConstraint rt q field = none := by
  simp [dateConstraint, h1, h2, h3, h4, truthy, DateRange.keyCount]

theorem booleanConstraint_absent (q : Query) (h : q "is_qualified" = .undefined) :
    booleanConstraint q = none := by
  simp [booleanConstraint, h]

/-- A field whose parameters are all absent has no key in the filter. -/
theorem getLeadsFilter_get_absent (rt : Runtime) (q : Query) (key : String)
    (h : ∀ p ∈ parametersOf key, q p = .undefined) :
    (getLeadsFilter rt q).get key = none := by
  rw [getLeadsFilter_get]
  by_cases hb : key = "is_qualified"
  · subst hb
    rw [if_pos rfl]
    exact booleanConstraint_absent q (h "is_qualified" (by decide))
  · rw [if_neg hb]
    by_cases hd : key ∈ dateFields
    · rw [if_pos hd]
      have hs : key ∉ stringFields := by
        simp only [dateFields, List.mem_cons, List.mem_singleton, List.mem_nil_iff, or_false] at hd
        rcases hd with rfl | rfl <;> decide
      have he : key ∉ enumFields := by
        simp only [dateFields, List.mem_cons, List.mem_singleton, List.mem_nil_iff, or_false] at hd
        rcases hd with rfl | rfl <;> decide
      have hn : key ∉ numberFields := by
        simp only [dateFields, List.mem_cons, List.mem_singleton, List.mem_nil_iff, or_false] at hd
        rcases hd with rfl | rfl <;> decide
      have hp : parametersOf key
          = [key ++ "_on", key ++ "_before", key ++ "_after", key ++ "_between"] := by
        simp [parametersOf, hs, he, hn, hd]
      rw [hp] at h
      exact dateConstraint_absent rt q key (h _ (by simp)) (h _ (by simp)) (h _ (by simp))
        (h _ (by simp))
    · rw [if_neg hd]
      by_cases hn : key ∈ numberFields
      · rw [if_pos hn]
        have hs : key ∉ stringFields := by
          simp only [numberFields, List.mem_cons, List.mem_singleton, List.mem_nil_iff,
            or_false] at hn
          rcases hn with rfl | rfl <;> decide
        have he : key ∉ enumFields := by
          simp only [numberFields, List.mem_cons, List.mem_singleton, List.mem_nil_iff,
            or_false] at hn
          rcases hn with rfl | rfl <;> decide
        have hp : parametersOf key
            = [key, key ++ "_gt", key ++ "_lt", key ++ "_between"] := by
          simp [parametersOf, hs, he, hn]
        rw [hp] at h
        exact numberConstraint_absent q key (h _ (by simp)) (h _ (by simp)) (h _ (by simp))
          (h _ (by simp))
      · rw [if_neg hn]
        by_cases he : key ∈ enumFields
        · rw [if_pos he]
          have hs : key ∉ stringFields := by
            simp only [enumFields, List.mem_cons, List.mem_singleton, List.mem_nil_iff,
              or_false] at he
            rcases he with rfl | rfl <;> decide
          have hp : parametersOf key = [key, key ++ "_in"] := by
            simp [parametersOf, hs, he]
          rw [hp] at h
          exact enumConstraint_absent q key (h _ (by simp)) (h _ (by simp))
        · rw [if_neg he]
          by_cases hs : key ∈ stringFields
          · rw [if_pos hs]
            have hp : parametersOf key = [key, key ++ "_contains"] := by
              simp [parametersOf, hs]
            rw [hp] at h
            exact stringConstraint_absent q key (h _ (by simp)) (h _ (by simp))
          · rw [if_neg hs]

theorem getLeadsFilter_get_filterable (rt : Runtime) (q : Query) (key : String)
    (h : (getLeadsFilter rt q).get key ≠ none) : key ∈ filterableFields := by
  rw [getLeadsFilter_get] at h
  by_cases hb : key = "is_qualified"
  · subst hb; decide
  · rw [if_neg hb] at h
    by_cases hd : key ∈ dateFields
    · simp only [dateFields, List.mem_cons, List.mem_singleton, List.mem_nil_iff, or_false] at hd
      rcases hd with rfl | rfl <;> decide
    · rw [if_neg hd] at h
      by_cases hn : key ∈ numberFields
      · simp only [numberFields, List.mem_cons, List.mem_singleton, List.mem_nil_iff,
          or_false] at hn
        rcases hn with rfl | rfl <;> decide
      · rw [if_neg hn] at h
        by_cases he : key ∈ enumFields
        · simp only [enumFields, List.mem_cons, List.mem_singleton, List.mem_nil_iff,
            or_false] at he
          rcases he with rfl | rfl <;> decide
        · rw [if_neg he] at h
          by_cases hs : key ∈ stringFields
          · simp only [stringFields, List.mem_cons, List.mem_singleton, List.mem_nil_iff,
              or_false] at hs
            rcases hs with rfl | rfl | rfl <;> decide
          · rw [if_neg hs] at h
            exact absurd rfl h

/-- C19: every key of the filter is one of the ten filterable fields, and a field
is a key only if one of its own parameters is present in the query; the empty
query, and every query that holds `page` and `limit` only, gives the empty
filter. -/
theorem C19_filter_keys (rt : Runtime) (q : Query) :
    (∀ key ∈ (getLeadsFilter rt q).keys,
        key ∈ filterableFields ∧ ∃ p ∈ parametersOf key, q p ≠ .undefined)
      ∧ getLeadsFilter rt (Query.ofList []) = []
      ∧ ((∀ p, p ≠ "page" → p ≠ "limit" → q p = .undefined) → getLeadsFilter rt q = []) := by
  refine ⟨?_, ?_, ?_⟩
  · intro key hkey
    rw [Filter.mem_keys_iff] at hkey
    refine ⟨getLeadsFilter_get_filterable rt q key hkey, ?_⟩
    by_contra hnone
    apply hkey
    apply getLeadsFilter_get_absent
    intro p hp
    by_contra hq
    exact hnone ⟨p, hp, hq⟩
  · rw [Filter.eq_nil_iff_get]
    intro key
    apply getLeadsFilter_get_absent
    intro p _
    rfl
  · intro h
    rw [Filter.eq_nil_iff_get]
    intro key
    by_cases hf : key ∈ filterableFields
    · apply getLeadsFilter_get_absent
      intro p hp
      apply h
      · rintro rfl
        simp only [filterableFields, List.mem_cons, List.mem_singleton, List.mem_nil_iff,
          or_false] at hf
        rcases hf with rfl | rfl | rfl | rfl | rfl | rfl | rfl | rfl | rfl | rfl <;>
          exact absurd hp (by decide)
      · rintro rfl
        simp only [filterableFields, List.mem_cons, List.mem_singleton, List.mem_nil_iff,
          or_false] at hf
        rcases hf with rfl | rfl | rfl | rfl | rfl | rfl | rfl | rfl | rfl | rfl <;>
          exact absurd hp (by decide)
    · by_contra hne
      exact hf (getLeadsFilter_get_filterable rt q key hne)

/-! ## The `_contains` parameter beside a blank exact parameter -/

/-- C20 where it fails: `company` is one space and `company_contains=acm`.  The
exact parameter is blank, yet it is a non-empty string, so the filter holds the
literal of one space under `company` and the pattern is not used. -/
theorem C20_whitespace_exact_counterexample :
    isBlank " " = true
      ∧ Query.ofList [("company", .string " "), ("company_contains", .string "acm")]
          ("company" ++ "_contains") = .string "acm"
      ∧ (getLeadsFilter (runtimeAt 0 fun _ => none)
          (Query.ofList [("company", .string " "), ("company_contains", .string "acm")])).get
          "company" = some (.eq (.string " "))
      ∧ (getLeadsFilter (runtimeAt 0 fun _ => none)
          (Query.ofList [("company", .string " "), ("company_contains", .string "acm")])).get
          "company" ≠ some (.regex "acm" "i") := by
  refine ⟨by decide, by decide, by decide, by decide⟩

/-- C20, amended: for a string field whose `_contains` parameter is a non-empty
string `v`, the filter holds the pattern `v` with the option `i` under the field
iff the exact parameter is not a non-empty string; so it does when the exact
parameter is the empty string, and a non-empty exact parameter, white space
included, is held as a literal instead. -/
theorem C20_contains_beside_exact (rt : Runtime) (q : Query) (field v : String)
    (hfield : field ∈ stringFields) (hcontains : q (field ++ "_contains") = .string v)
    (hv : v ≠ "") :
    ((getLeadsFilter rt q).get field = some (.regex v "i") ↔
        ¬ ∃ s, q field = .string s ∧ s ≠ "")
      ∧ (q field = .string "" → (getLeadsFilter rt q).get field = some (.regex v "i"))
      ∧ (∀ s, q field = .string s → s ≠ "" →
          (getLeadsFilter rt q).get field = some (.eq (.string s))) := by
  have hvd : ¬ v.data = [] := fun h => hv ((string_eq_empty_iff v).1 h)
  rw [getLeadsFilter_get_string rt q field hfield]
  have hempty : q field = .string "" → stringConstraint q field = some (.regex v "i") := by
    intro h
    simp [stringConstraint, h, hcontains, truthy, isString, hvd]
  have hexact : ∀ s, q field = .string s → s ≠ "" →
      stringConstraint q field = some (.eq (.string s)) := by
    intro s h hs
    have hsd : ¬ s.data = [] := fun h => hs ((string_eq_empty_iff s).1 h)
    simp [stringConstraint, h, truthy, isString, hsd]
  refine ⟨?_, hempty, hexact⟩
  constructor
  · rintro h ⟨s, hs, hne⟩
    rw [hexact s hs hne] at h
    exact Constraint.noConfusion (Option.some.inj h)
  · intro h
    cases hq : q field with
    | string s =>
      have hs : s = "" := by
        by_contra hne
        exact h ⟨s, hq, hne⟩
      subst hs
      exact hempty hq
    | _ => simp [stringConstraint, hq, hcontains, truthy, isString, hvd]

/-- C20 at `company=&company_contains=acm`: the filter holds the pattern `acm`
with the option `i` under `company`. -/
theorem C20_contains_beside_exact_witness :
    "company" ∈ stringFields
      ∧ Query.ofList [("company", .string ""), ("company_contains", .string "acm")]
          ("company" ++ "_contains") = .string "acm"
      ∧ "acm" ≠ ""
      ∧ (getLeadsFilter (runtimeAt 0 fun _ => none)
          (Query.ofList [("company", .string ""), ("company_contains", .string "acm")])).get
          "company" = some (.regex "acm" "i") :=
  ⟨by decide, by decide, by decide,
    (C20_contains_beside_exact (runtimeAt 0 fun _ => none) _ "company" "acm" (by decide)
      (by decide) (by decide)).2.1 (by decide)⟩

end LeadsApi
